import Mathlib

/-!
Verification development for the frontier-app bid reconciliation and
aggregation engine (server routes `bids.ts` and `import.ts`).

The TypeScript source is shallowly embedded: JS numbers are modelled as
rationals plus the special values NaN/±Infinity (string→number parsing
covers the decimal and Infinity literals of `Number(…)`; binary-float
rounding is irrelevant to the properties proved here, which only concern
sign, finiteness and exact small constants), JS `Date` values are days
since the Unix epoch (all dates constructed by the code are midnight
UTC), and the Prisma store is an explicit record of persisted entities
threaded through each handler, with `$transaction` applying all of its
operations or none.
-/

namespace Frontier

/-! ## JS numbers -/

/-- A JavaScript number: NaN, ±Infinity, or a finite value (modelled
exactly as a rational). -/
inductive JsNum where
  | nan : JsNum
  | inf : JsNum
  | negInf : JsNum
  | fin : ℚ → JsNum
deriving DecidableEq, Repr

/-- JS truthiness of a number: `NaN` and `0` are falsy. -/
def JsNum.truthy : JsNum → Bool
  | .nan => false
  | .fin q => q ≠ 0
  | _ => true

def JsNum.isFinite : JsNum → Bool
  | .fin _ => true
  | _ => false

def isDigit (c : Char) : Bool := '0' ≤ c && c ≤ '9'

def digitVal (c : Char) : ℕ := c.toNat - '0'.toNat

/-- Value of a digit string (most significant first). -/
def digitsVal (cs : List Char) : ℕ :=
  cs.foldl (fun acc c => acc * 10 + digitVal c) 0

/-- JS whitespace, restricted to the characters occurring in the
inputs this development evaluates. -/
def isJsSpace (c : Char) : Bool :=
  c = ' ' ∨ c = '\t' ∨ c = '\n' ∨ c = '\r'

/-- `String.prototype.trim`. -/
def jsTrim (s : String) : String :=
  ⟨((s.data.dropWhile isJsSpace).reverse.dropWhile isJsSpace).reverse⟩

def lowerChar (c : Char) : Char :=
  if 'A' ≤ c ∧ c ≤ 'Z' then Char.ofNat (c.toNat + 32) else c

/-- `String.prototype.toLowerCase` on ASCII input. -/
def jsToLower (s : String) : String :=
  ⟨s.data.map lowerChar⟩

/-- Parse an unsigned decimal literal `digits[.digits]` (at least one
digit on one side of the point), consuming the whole input. -/
def parseUnsignedDec (cs : List Char) : Option ℚ :=
  let intPart := cs.takeWhile isDigit
  let rest := cs.dropWhile isDigit
  match rest with
  | [] => if intPart.isEmpty then none else some (digitsVal intPart)
  | '.' :: frac =>
      if frac.all isDigit ∧ ¬(intPart.isEmpty ∧ frac.isEmpty) then
        some ((digitsVal intPart : ℚ) + (digitsVal frac : ℚ) / (10 ^ frac.length : ℚ))
      else none
  | _ => none

/-- `Number(string)` on a trimmed string: empty → 0, `Infinity` literals,
signed decimal literals; anything else → NaN.  (The hex/exponent literal
forms accepted by JS are outside the fragment this development
evaluates.) -/
def jsNumOfTrimmed (cs : List Char) : JsNum :=
  match cs with
  | [] => .fin 0
  | '+' :: rest =>
      if rest = "Infinity".data then .inf
      else match parseUnsignedDec rest with
           | some q => .fin q
           | none => .nan
  | '-' :: rest =>
      if rest = "Infinity".data then .negInf
      else match parseUnsignedDec rest with
           | some q => .fin (-q)
           | none => .nan
  | _ =>
      if cs = "Infinity".data then .inf
      else match parseUnsignedDec cs with
           | some q => .fin q
           | none => .nan

/-- `Number(string)`: trims, then parses. -/
def jsNumOfString (s : String) : JsNum :=
  jsNumOfTrimmed (jsTrim s).data

/-- JS `+` on numbers (used by the spec-modelled `totalAmount`). -/
def JsNum.add : JsNum → JsNum → JsNum
  | .nan, _ => .nan
  | _, .nan => .nan
  | .inf, .negInf => .nan
  | .negInf, .inf => .nan
  | .inf, _ => .inf
  | _, .inf => .inf
  | .negInf, _ => .negInf
  | _, .negInf => .negInf
  | .fin a, .fin b => .fin (a + b)

/-! ## JS dates

A `Date` holding midnight UTC is modelled as its day number relative to
1970-01-01. -/

/-- Days from 1970-01-01 to the civil date `y-m-d` (m ∈ 1..12);
standard proleptic-Gregorian day-count arithmetic. -/
def daysFromCivil (y m d : ℤ) : ℤ :=
  let y' : ℤ := if m ≤ 2 then y - 1 else y
  let era : ℤ := y'.fdiv 400
  let yoe : ℤ := y' - era * 400
  let mp : ℤ := if m > 2 then m - 3 else m + 9
  let doy : ℤ := (153 * mp + 2).fdiv 5 + (d - 1)
  let doe : ℤ := yoe * 365 + yoe.fdiv 4 - yoe.fdiv 100 + doy
  era * 146097 + doe - 719468

def isLeapYear (y : ℤ) : Bool :=
  y % 4 = 0 && (y % 100 ≠ 0 || y % 400 = 0)

def daysInMonth (y m : ℤ) : ℤ :=
  if m = 2 then (if isLeapYear y then 29 else 28)
  else if m = 4 ∨ m = 6 ∨ m = 9 ∨ m = 11 then 30
  else 31

/-- ECMAScript `MakeDay(year, month, day)` with a 0-based `month` and
arbitrary integer `month`/`day`: the month is normalised into the year
and the day offsets arithmetically (out-of-range days roll over into
neighbouring months). -/
def jsMakeDay (year month day : ℤ) : ℤ :=
  let ym : ℤ := year + month.fdiv 12
  let mn : ℤ := month.emod 12
  daysFromCivil ym (mn + 1) 1 + (day - 1)

/-- ECMAScript parse of a date-only ISO string `YYYY-MM-DD` (the Date
Time String Format): the components must name a real calendar date,
otherwise the result is an invalid date (`none`).  Engine-specific
fallback formats for other strings are outside the modelled fragment
and yield `none` (as they do for inputs such as `"not a date"`). -/
def jsDateFromString (s : String) : Option ℤ :=
  match s.data with
  | [y1, y2, y3, y4, '-', m1, m2, '-', d1, d2] =>
      if [y1, y2, y3, y4, m1, m2, d1, d2].all isDigit then
        let y : ℤ := digitsVal [y1, y2, y3, y4]
        let m : ℤ := digitsVal [m1, m2]
        let d : ℤ := digitsVal [d1, d2]
        if 1 ≤ m ∧ m ≤ 12 ∧ 1 ≤ d ∧ d ≤ daysInMonth y m then
          some (daysFromCivil y m d)
        else none
      else none
  | _ => none

/-! ## Normalization library (`server/src/routes/import.ts`) -/

/-- Test of the regex `^\d{4}-\d{2}-\d{2}` (ISO prefix). -/
def isoPrefixTest : List Char → Bool
  | y1 :: y2 :: y3 :: y4 :: '-' :: m1 :: m2 :: '-' :: d1 :: d2 :: _ =>
      [y1, y2, y3, y4, m1, m2, d1, d2].all isDigit
  | _ => false

/-- Match of the anchored regex pattern `(\d{1,2}) sep (\d{1,2}) sep
(\d{4})`, where `sep` is a slash or a hyphen (the two separators need
not agree), returning the three captured groups as numbers.  (The greedy 1–2 digit groups must
be followed by a separator, so taking the maximal digit run and checking
its length is equivalent to the regex with backtracking.) -/
def dmyMatch (cs : List Char) : Option (ℕ × ℕ × ℕ) :=
  let g1 := cs.takeWhile isDigit
  let r1 := cs.dropWhile isDigit
  if g1.length = 0 ∨ 2 < g1.length then none else
  match r1 with
  | c1 :: r2 =>
    if c1 = '/' ∨ c1 = '-' then
      let g2 := r2.takeWhile isDigit
      let r3 := r2.dropWhile isDigit
      if g2.length = 0 ∨ 2 < g2.length then none else
      match r3 with
      | c2 :: r4 =>
        if c2 = '/' ∨ c2 = '-' then
          if r4.length = 4 ∧ r4.all isDigit then
            some (digitsVal g1, digitsVal g2, digitsVal r4)
          else none
        else none
      | [] => none
    else none
  | [] => none

/-- `parseDateLoose(s?)`: `undefined`/empty → null; ISO-prefixed strings
go to the engine's date parse; a `D/M/Y` or `D-M-Y` pattern is built with
`Date.UTC(y, month-1, day)` taking the FIRST group as day (`Date.UTC` on
a 4-digit year always yields a time value in range, so the `isNaN` guard
of that branch never fires); anything else falls back to the engine's
date parse. -/
def parseDateLoose (s : Option String) : Option ℤ :=
  match s with
  | none => none
  | some str =>
    if str = "" then none
    else
      let t := jsTrim str
      if isoPrefixTest t.data then jsDateFromString t
      else
        match dmyMatch t.data with
        | some (a, b, y) => some (jsMakeDay y ((b : ℤ) - 1) a)
        | none => jsDateFromString t

/-- Persisted per-scope win/loss state. -/
inductive ScopeStatus where
  | Pending | Won | Lost
deriving DecidableEq, Repr

def scopeStatusStr : ScopeStatus → String
  | .Pending => "Pending"
  | .Won => "Won"
  | .Lost => "Lost"

/-- `cleanStatus(s?)`: trim, empty → undefined, lower-case, match one of
the three known values, else undefined. -/
def cleanStatus (s : Option String) : Option ScopeStatus :=
  let v := jsTrim (s.getD "")
  if v = "" then none
  else
    let norm := jsToLower v
    if norm = "pending" then some .Pending
    else if norm = "won" then some .Won
    else if norm = "lost" then some .Lost
    else none

/-- Bid lifecycle status values. -/
inductive BidStatus where
  | Active | Complete | Archived | Hot | Cold
deriving DecidableEq, Repr

def bidStatusStr : BidStatus → String
  | .Active => "Active"
  | .Complete => "Complete"
  | .Archived => "Archived"
  | .Hot => "Hot"
  | .Cold => "Cold"

/-- `cleanBidStatus(s?)`: trim + lower-case, fixed synonym table, any
unmapped value (including empty) resolves to `Active`. -/
def cleanBidStatus (s : Option String) : BidStatus :=
  let v := jsToLower (jsTrim (s.getD ""))
  if v = "active" then .Active
  else if v = "complete" then .Complete
  else if v = "completed" then .Complete
  else if v = "archive" then .Archived
  else if v = "archived" then .Archived
  else if v = "hot" then .Hot
  else if v = "cold" then .Cold
  else .Active

/-- The `.replace(/[, ]+/g, '')` step: delete every comma and space. -/
def stripCommaSpace (s : String) : String :=
  ⟨s.data.filter (fun c => ¬(c = ',' ∨ c = ' '))⟩

/-- `toNumberOrZero(x)` on a CSV field (string or undefined): strip
separators, `Number(…)`, and return 0 unless the result is finite. -/
def toNumberOrZero (x : Option String) : ℚ :=
  match jsNumOfString (stripCommaSpace (x.getD "")) with
  | .fin q => q
  | _ => 0

/-! ## Permission model (`server/src/routes/bids.ts`) -/

inductive Role where
  | ADMIN | MANAGER | ESTIMATOR | VIEWER
deriving DecidableEq, Repr

inductive Action where
  | read | create | update | delete
deriving DecidableEq, Repr

/-- The authenticated identity attached by the auth middleware. -/
structure User where
  id : ℤ
  role : Role
deriving DecidableEq, Repr

/-- The fixed role → allowed-actions matrix `ROLE_PERMS`. -/
def ROLE_PERMS : Role → List Action
  | .ADMIN => [.read, .create, .update, .delete]
  | .MANAGER => [.read, .create, .update]
  | .ESTIMATOR => [.read, .create, .update, .delete]
  | .VIEWER => [.read]

/-- `can(req, action)`: false when no role is attached, else matrix
membership. -/
def can (u : Option User) (a : Action) : Bool :=
  match u with
  | none => false
  | some usr => (ROLE_PERMS usr.role).contains a

/-- Modelled from the spec: the `requireRole` middleware lives in
`server/src/middleware/permissions.ts`, which is not under `src/`; per
§4.4 / §6 it denies with `Forbidden` when the caller's role is absent or
not among the roles the route allows. -/
def requireRole (allowed : List Role) (u : Option User) : Bool :=
  match u with
  | none => false
  | some usr => allowed.contains usr.role

/-! ## Scope sanitization (`bids.ts`) -/

/-- The `cost` property of an incoming scope object: absent/null, an
already-numeric value, or a string. -/
inductive CostIn where
  | missing : CostIn
  | num : JsNum → CostIn
  | str : String → CostIn
deriving DecidableEq, Repr

/-- `Number(s.cost ?? 0) || 0`: NaN (and 0 itself) falls back to 0;
every other value — including negative numbers and ±Infinity — passes
through. -/
def sanitizeCost (c : CostIn) : JsNum :=
  let n : JsNum :=
    match c with
    | .missing => .fin 0
    | .num x => x
    | .str s => jsNumOfString s
  if n.truthy then n else .fin 0

/-- An element of an incoming `scopes` array. -/
structure ScopeIn where
  name : Option String
  cost : CostIn
  status : Option String
deriving DecidableEq, Repr

/-- A persisted Scope row (owned by a bid; the owning id is the
position of the record inside its bid). -/
structure Scope where
  name : String
  cost : JsNum
  status : ScopeStatus
deriving DecidableEq, Repr

/-- `String(s.status)` as used against `VALID_SCOPE_STATUS`: JS
stringifies `undefined` to `"undefined"`. -/
def scopeStatusKey (s : Option String) : String :=
  match s with
  | none => "undefined"
  | some v => v

/-- The whole `scopes` field of a request body: absent, null, a
non-array value, or an array of scope objects. -/
inductive ScopesField where
  | missing : ScopesField
  | null : ScopesField
  | notArray : ScopesField
  | arr : List ScopeIn → ScopesField
deriving DecidableEq, Repr

/-- `sanitizeScopes(raw)`: non-arrays become `[]`; each element gets a
trimmed name, the `Number(… ) || 0` cost, and a status kept only on an
exact (case-sensitive) match against `VALID_SCOPE_STATUS`; empty-named
results are dropped. -/
def sanitizeScopes : ScopesField → List Scope
  | .arr xs =>
      (xs.map (fun s =>
        { name := (jsTrim (s.name.getD "") : String)
          cost := sanitizeCost s.cost
          status :=
            if scopeStatusKey s.status = "Pending" then .Pending
            else if scopeStatusKey s.status = "Won" then .Won
            else if scopeStatusKey s.status = "Lost" then .Lost
            else .Pending : Scope })).filter (fun s => 0 < s.name.length)
  | _ => []

/-! ## The persisted store

An explicit model of the Prisma-backed tables the claims touch (notes,
tags and attachments are related tables no claim exercises; they are not
modelled).  `nextId` feeds ids for created rows and `now` the
`createdAt` / `updatedAt` timestamps. -/

structure Company where
  id : ℤ
  name : String
deriving DecidableEq, Repr

structure Contact where
  id : ℤ
  name : String
  companyId : ℤ
deriving DecidableEq, Repr

structure Bid where
  id : ℤ
  projectName : String
  clientCompanyId : Option ℤ
  contactId : Option ℤ
  proposalDate : Option ℤ
  dueDate : Option ℤ
  followUpOn : Option ℤ
  jobLocation : Option String
  leadSource : Option String
  bidStatus : Option String
  scopes : List Scope
  createdAt : ℤ
  updatedAt : ℤ
deriving DecidableEq, Repr

structure Db where
  bids : List Bid
  companies : List Company
  contacts : List Contact
  nextId : ℤ
  now : ℤ
deriving DecidableEq, Repr

/-! ## Aggregation library -/

inductive AggStatus where
  | Pending | Won | Lost | Unknown
deriving DecidableEq, Repr

/-- Modelled from the spec: `totalAmount` lives in
`server/src/utils/aggregate.ts`, which is not under `src/`; per §4.2/§8
it is the sum of each scope's coerced cost (non-numeric cost coerced to
0), with the empty collection summing to 0. -/
def totalAmount (scopes : List Scope) : ℚ :=
  (scopes.map (fun s => match s.cost with | .fin q => q | _ => 0)).sum

/-- Modelled from the spec: `aggregateScopeStatus` lives in
`server/src/utils/aggregate.ts`, which is not under `src/`; §4.2 fixes
the example precedence "all Won ⇒ Won; any Lost and none Pending ⇒
Lost; any Pending ⇒ Pending; empty ⇒ Unknown". -/
def aggregateScopeStatus (scopes : List Scope) : AggStatus :=
  if scopes.isEmpty then .Unknown
  else if scopes.all (fun s => s.status = .Won) then .Won
  else if scopes.any (fun s => s.status = .Lost) &&
          scopes.all (fun s => s.status ≠ .Pending) then .Lost
  else if scopes.any (fun s => s.status = .Pending) then .Pending
  else .Unknown

/-! ## Bid record service (`server/src/routes/bids.ts`) -/

/-- A row of the GET `/bids` response.  The mapped projection carries no
`scopes` property for any role (and `amount := none` renders as JSON
`null`). -/
structure BidListRow where
  id : ℤ
  projectName : String
  clientName : String
  amount : Option ℚ
  proposalDate : Option ℤ
  dueDate : Option ℤ
  followUpOn : Option ℤ
  scopeStatus : AggStatus
  bidStatus : Option String
deriving DecidableEq, Repr

/-- `redactForViewer`: rows pass through untouched unless the caller's
role is VIEWER, in which case `amount` becomes `null` (the
`scopes: undefined` the source also spreads in serializes to an absent
field, and the row shape has no `scopes` property to begin with). -/
def redactForViewer (u : Option User) (rows : List BidListRow) : List BidListRow :=
  if u.map User.role ≠ some .VIEWER then rows
  else rows.map (fun r => { r with amount := none })

def isPrefixB : List Char → List Char → Bool
  | [], _ => true
  | _ :: _, [] => false
  | a :: as, b :: bs => a = b && isPrefixB as bs

def isInfixB (needle : List Char) : List Char → Bool
  | [] => needle.isEmpty
  | h :: t => isPrefixB needle (h :: t) || isInfixB needle t

/-- Case-sensitive substring containment (the Prisma `contains`
filter). -/
def strContains (hay needle : String) : Bool :=
  isInfixB needle.data hay.data

def findCompany (db : Db) (cid : Option ℤ) : Option Company :=
  cid.bind (fun i => db.companies.find? (fun c => c.id = i))

def findContact (db : Db) (cid : Option ℤ) : Option Contact :=
  cid.bind (fun i => db.contacts.find? (fun c => c.id = i))

/-- Query parameters of GET `/bids`.  (`createdFrom`/`createdTo` date
range filtering is present in the source but exercised by no claim and
not modelled.) -/
structure ListQuery where
  status : Option String
  search : Option String
deriving Repr

/-- The `where` clause built by GET `/bids`: optional `bidStatus`
equality (an empty status string means no filter, via `|| undefined`)
and an optional OR of three case-sensitive `contains` filters over the
trimmed search text. -/
def listWhere (db : Db) (q : ListQuery) (b : Bid) : Bool :=
  (match q.status with
   | none => true
   | some st => if st = "" then true else b.bidStatus = some st) &&
  (let search := jsTrim (q.search.getD "")
   if search = "" then true
   else
     strContains b.projectName search ||
     (match findCompany db b.clientCompanyId with
      | some c => strContains c.name search
      | none => false) ||
     (match findContact db b.contactId with
      | some c => strContains c.name search
      | none => false))

inductive ListResp where
  | forbidden : ListResp
  | ok : List BidListRow → ListResp
deriving DecidableEq, Repr

/-- Stable insertion of a bid into a list sorted by `updatedAt`
descending (an earlier element with an equal timestamp stays first). -/
def insertDescUpdated (b : Bid) : List Bid → List Bid
  | [] => [b]
  | x :: t => if b.updatedAt ≥ x.updatedAt then b :: x :: t else x :: insertDescUpdated b t

/-- The `orderBy: updatedAt desc` ordering of the query result. -/
def orderByUpdatedAtDesc : List Bid → List Bid
  | [] => []
  | b :: t => insertDescUpdated b (orderByUpdatedAtDesc t)

/-- The `mapped` projection of GET `/bids`: the filtered query ordered
most-recently-updated first, each row annotated with the derived
`amount` and `scopeStatus`. -/
def listMapped (db : Db) (q : ListQuery) : List BidListRow :=
  (orderByUpdatedAtDesc (db.bids.filter (listWhere db q))).map (fun b =>
    { id := b.id
      projectName := b.projectName
      clientName := (match findCompany db b.clientCompanyId with
                     | some c => c.name
                     | none => "—")
      amount := some (totalAmount b.scopes)
      proposalDate := b.proposalDate
      dueDate := b.dueDate
      followUpOn := b.followUpOn
      scopeStatus := aggregateScopeStatus b.scopes
      bidStatus := b.bidStatus : BidListRow })

/-- GET `/bids`: permission gate, the `mapped` projection, then viewer
redaction. -/
def bidsGetList (u : Option User) (q : ListQuery) (db : Db) : ListResp :=
  if ¬ can u .read then .forbidden
  else .ok (redactForViewer u (listMapped db q))

/-- The GET `/bids/:id` response record: the bid row with its included
relations; `scopes := none` models the field being omitted from the
serialized response (the viewer branch spreads `scopes: undefined`).
The `notes` / `tags` / `attachments` inclusions are not modelled. -/
structure BidDetail where
  id : ℤ
  projectName : String
  clientCompanyId : Option ℤ
  contactId : Option ℤ
  proposalDate : Option ℤ
  dueDate : Option ℤ
  followUpOn : Option ℤ
  jobLocation : Option String
  leadSource : Option String
  bidStatus : Option String
  createdAt : ℤ
  updatedAt : ℤ
  clientCompany : Option Company
  contact : Option Contact
  scopes : Option (List Scope)
deriving DecidableEq, Repr

def toDetail (db : Db) (b : Bid) : BidDetail :=
  { id := b.id
    projectName := b.projectName
    clientCompanyId := b.clientCompanyId
    contactId := b.contactId
    proposalDate := b.proposalDate
    dueDate := b.dueDate
    followUpOn := b.followUpOn
    jobLocation := b.jobLocation
    leadSource := b.leadSource
    bidStatus := b.bidStatus
    createdAt := b.createdAt
    updatedAt := b.updatedAt
    clientCompany := findCompany db b.clientCompanyId
    contact := findContact db b.contactId
    scopes := some b.scopes }

inductive GetOneResp where
  | forbidden : GetOneResp
  | badRequest : GetOneResp
  | notFound : GetOneResp
  | ok : BidDetail → GetOneResp
deriving DecidableEq, Repr

/-- GET `/bids/:id`. -/
def bidsGetOne (u : Option User) (idStr : String) (db : Db) : GetOneResp :=
  if ¬ can u .read then .forbidden
  else
    match jsNumOfString idStr with
    | .fin idq =>
        (match db.bids.find? (fun b => (b.id : ℚ) = idq) with
         | none => .notFound
         | some b =>
             if u.map User.role = some .VIEWER then
               .ok { toDetail db b with scopes := none }
             else .ok (toDetail db b))
    | _ => .badRequest

/-- A request body for POST `/bids` and PUT `/bids/:id`. -/
structure BidBody where
  projectName : Option String
  clientCompanyId : Option ℤ
  contactId : Option ℤ
  proposalDate : Option String
  dueDate : Option String
  followUpOn : Option String
  jobLocation : Option String
  leadSource : Option String
  bidStatus : Option String
  scopes : ScopesField
deriving Repr

/-- `parseDateOrNull(v)`: `v ? new Date(v) : null`.  A string the engine
cannot parse produces an Invalid Date in JS; the model collapses it to
null (no claim exercises that case). -/
def parseDateOrNull (v : Option String) : Option ℤ :=
  match v with
  | none => none
  | some s => if s = "" then none else jsDateFromString s

/-- JS `||`-coalescing on an optional string: empty string → null. -/
def orNullStr (v : Option String) : Option String :=
  match v with
  | none => none
  | some s => if s = "" then none else some s

/-- JS `||`-coalescing on an optional number: 0 → null. -/
def orNullInt (v : Option ℤ) : Option ℤ :=
  match v with
  | none => none
  | some x => if x = 0 then none else some x

inductive PostResp where
  | forbidden : PostResp
  | created : Bid → PostResp
deriving DecidableEq, Repr

/-- The bid row POST `/bids` hands to `prisma.bid.create`: note
`bidStatus` is forwarded verbatim from the request body. -/
def postNewBid (body : BidBody) (db : Db) : Bid :=
  { id := db.nextId
    projectName := jsTrim (body.projectName.getD "")
    clientCompanyId := body.clientCompanyId
    contactId := body.contactId
    proposalDate := parseDateOrNull body.proposalDate
    dueDate := parseDateOrNull body.dueDate
    followUpOn := parseDateOrNull body.followUpOn
    jobLocation := body.jobLocation
    leadSource := body.leadSource
    bidStatus := body.bidStatus
    scopes := sanitizeScopes body.scopes
    createdAt := db.now
    updatedAt := db.now }

/-- POST `/bids`: role gate, scope sanitization, then one create that
persists the bid together with its sanitized scopes. -/
def bidsPost (u : Option User) (body : BidBody) (db : Db) : Db × PostResp :=
  if ¬ requireRole [.ADMIN, .MANAGER, .ESTIMATOR] u then (db, .forbidden)
  else
    ({ db with bids := db.bids ++ [postNewBid body db], nextId := db.nextId + 1 },
     .created (postNewBid body db))

/-- `prisma.scope.deleteMany({ where: { bidId: id } })`. -/
def scopeDeleteMany (idq : ℚ) (db : Db) : Db :=
  { db with bids := db.bids.map (fun b =>
      if (b.id : ℚ) = idq then { b with scopes := [] } else b) }

/-- The `data` of the PUT update applied to a stored bid; the nested
`scopes.create` appends the new scope rows to whatever rows the bid
holds at that point in the transaction. -/
def bidUpdateData (body : BidBody) (scopes : List Scope) (now : ℤ) (b : Bid) : Bid :=
  { b with
    projectName := jsTrim (body.projectName.getD "")
    clientCompanyId := body.clientCompanyId
    contactId := orNullInt body.contactId
    proposalDate := parseDateOrNull body.proposalDate
    dueDate := parseDateOrNull body.dueDate
    followUpOn := parseDateOrNull body.followUpOn
    jobLocation := orNullStr body.jobLocation
    leadSource := orNullStr body.leadSource
    bidStatus := body.bidStatus
    scopes := b.scopes ++ scopes
    updatedAt := now }

/-- `prisma.bid.update({ where: { id } })`: throws (error) when no bid
has the id, else rewrites the matching bid and returns it. -/
def bidUpdate (idq : ℚ) (body : BidBody) (scopes : List Scope) (db : Db) :
    Except String (Db × Bid) :=
  match db.bids.find? (fun b => (b.id : ℚ) = idq) with
  | none => .error "Record to update not found."
  | some b0 =>
      .ok ({ db with bids := db.bids.map (fun b =>
               if (b.id : ℚ) = idq then bidUpdateData body scopes db.now b else b) },
           bidUpdateData body scopes db.now b0)

inductive PutResp where
  | forbidden : PutResp
  | badRequest : PutResp
  | txError : PutResp
  | ok : Bid → PutResp
deriving DecidableEq, Repr

/-- PUT `/bids/:id`: role gate (the preceding `canAccessBid` middleware
is not under `src/` and is modelled from the spec as a pass-through —
§4.5 imposes only the update-permission requirement), id check, then
`$transaction([scope.deleteMany, bid.update])`: both statements apply,
or on failure neither does and the pre-transaction store is kept. -/
def bidsPut (u : Option User) (idStr : String) (body : BidBody) (db : Db) :
    Db × PutResp :=
  if ¬ requireRole [.ADMIN, .MANAGER, .ESTIMATOR] u then (db, .forbidden)
  else
    match jsNumOfString idStr with
    | .fin idq =>
        let scopes := sanitizeScopes body.scopes
        let db1 := scopeDeleteMany idq db
        (match bidUpdate idq body scopes db1 with
         | .ok (db2, b) => (db2, .ok b)
         | .error _ => (db, .txError))
    | _ => (db, .badRequest)

/-- `Number.parseInt(s, 10)`: trimmed leading sign + digit prefix; NaN
when no leading digits. -/
def jsParseInt (s : String) : Option ℤ :=
  let core : List Char → Option ℤ := fun cs =>
    let ds := cs.takeWhile isDigit
    if ds.isEmpty then none else some (digitsVal ds)
  match (jsTrim s).data with
  | '+' :: rest => core rest
  | '-' :: rest => (core rest).map Neg.neg
  | cs => core cs

inductive DelResp where
  | forbidden : DelResp
  | badRequest : DelResp
  | notFound : DelResp
  | noContent : DelResp
deriving DecidableEq, Repr

/-- DELETE `/bids/:id`: role gate, id check, then one transaction that
removes the bid's child rows and the bid itself (`deleteMany`, so a
missing id deletes zero rows rather than throwing); zero bids deleted
signals NotFound. -/
def bidsDelete (u : Option User) (idStr : String) (db : Db) : Db × DelResp :=
  if ¬ requireRole [.ADMIN, .ESTIMATOR] u then (db, .forbidden)
  else
    match jsParseInt idStr with
    | none => (db, .badRequest)
    | some idz =>
        let count := (db.bids.filter (fun b => b.id = idz)).length
        let db' := { db with bids := db.bids.filter (fun b => ¬ b.id = idz) }
        if count = 0 then (db', .notFound) else (db', .noContent)

/-! ## Reconciliation engine (`server/src/routes/import.ts`) -/

/-- One flat CSV row as decoded by the tabular-data decoder (every
field may be absent). -/
structure Row where
  projectName : Option String
  clientCompany : Option String
  contactName : Option String
  proposalDate : Option String
  dueDate : Option String
  jobLocation : Option String
  leadSource : Option String
  bidStatus : Option String
  scopeName : Option String
  scopeCost : Option String
  scopeStatus : Option String
deriving Repr

/-- A scope draft accumulated during grouping. -/
structure ScopeDraft where
  name : String
  cost : ℚ
  status : Option ScopeStatus
deriving DecidableEq, Repr

/-- A group under one `projectName||clientCompany` key. -/
structure Group where
  projectName : String
  clientCompany : String
  contactName : Option String
  proposalDate : String
  dueDate : String
  jobLocation : Option String
  leadSource : Option String
  bidStatus : BidStatus
  scopes : List ScopeDraft
deriving DecidableEq, Repr

/-- The `grouped` object: an insertion-ordered association list (every
key contains the literal `||`, so no key is an array index and JS
object-key enumeration preserves insertion order). -/
def assocFind (acc : List (String × Group)) (k : String) : Option Group :=
  (acc.find? (fun p => p.1 = k)).map Prod.snd

def assocReplace (acc : List (String × Group)) (k : String) (g : Group) :
    List (String × Group) :=
  acc.map (fun p => if p.1 = k then (k, g) else p)

/-- The scope draft a row contributes. -/
def draftOfRow (r : Row) : ScopeDraft :=
  { name := (jsTrim (r.scopeName.getD "") : String)
    cost := toNumberOrZero r.scopeCost
    status := cleanStatus r.scopeStatus }

/-- The grouping key a row contributes to, if any: `none` exactly for
the rows the loop skips (`continue`) because the trimmed `projectName`
or `clientCompany` is empty. -/
def rowKey? (r : Row) : Option String :=
  let pn := (jsTrim (r.projectName.getD "") : String)
  let cc := (jsTrim (r.clientCompany.getD "") : String)
  if pn = "" ∨ cc = "" then none else some (pn ++ "||" ++ cc)

/-- The group a first row seeds (`grouped[key] = {...}`, before the
unconditional scope push). -/
def seedGroup (r : Row) : Group :=
  { projectName := (jsTrim (r.projectName.getD "") : String)
    clientCompany := (jsTrim (r.clientCompany.getD "") : String)
    contactName := orNullStr (some (jsTrim (r.contactName.getD "")))
    proposalDate := jsTrim (r.proposalDate.getD "")
    dueDate := jsTrim (r.dueDate.getD "")
    jobLocation := orNullStr (some (jsTrim (r.jobLocation.getD "")))
    leadSource := orNullStr (some (jsTrim (r.leadSource.getD "")))
    bidStatus := cleanBidStatus r.bidStatus
    scopes := [] }

/-- The status-elevation branch for a subsequent row of an existing
group: upgrade only from `Active` to a non-`Active` incoming status. -/
def elevated (g : Group) (r : Row) : Group :=
  let incomingStatus := cleanBidStatus r.bidStatus
  if g.bidStatus = .Active ∧ ¬ incomingStatus = .Active then
    { g with bidStatus := incomingStatus }
  else g

/-- One iteration of the grouping loop: rows without a key are skipped;
a fresh key seeds the group from the row's bid-level fields while an
existing group goes through status elevation; either way the row's
scope draft is then pushed onto the group. -/
def groupStep (acc : List (String × Group)) (r : Row) : List (String × Group) :=
  match rowKey? r with
  | none => acc
  | some key =>
      let acc1 :=
        match assocFind acc key with
        | none => acc ++ [(key, seedGroup r)]
        | some g => assocReplace acc key (elevated g r)
      match assocFind acc1 key with
      | some g1 => assocReplace acc1 key { g1 with scopes := g1.scopes ++ [draftOfRow r] }
      | none => acc1

def groupRows (rows : List Row) : List (String × Group) :=
  rows.foldl groupStep []

/-- The canonicalized statuses of the rows feeding one key, in row
order. -/
def keyStatuses (k : String) (rows : List Row) : List BidStatus :=
  (rows.filter (fun r => rowKey? r = some k)).map (fun r => cleanBidStatus r.bidStatus)

/-- First non-`Active` element of a status sequence, `Active` when
there is none. -/
def firstNonActive : List BidStatus → BidStatus
  | [] => .Active
  | s :: rest => if s = .Active then firstNonActive rest else s

/-- A group commits iff both of its dates parse. -/
def groupValid (g : Group) : Bool :=
  (parseDateLoose (some g.proposalDate)).isSome &&
    (parseDateLoose (some g.dueDate)).isSome

/-- The per-group sanitized scope creates: empty names dropped,
`toNumberOrZero(s.cost)` on the already-coerced finite cost is the
identity (the string form of a finite number contains neither comma nor
space and `Number` inverts `String` on numbers), and
`cleanStatus(s.status) ?? 'Pending'` re-canonicalizes the stored
status. -/
def scopeCreatesOf (g : Group) : List Scope :=
  (g.scopes.filter (fun s => ¬ s.name = "")).map (fun s =>
    { name := s.name
      cost := .fin s.cost
      status := (cleanStatus (s.status.map scopeStatusStr)).getD .Pending })

/-- Company resolution by exact name, creating the row if absent. -/
def upsertCompany (db : Db) (name : String) : Db × Company :=
  match db.companies.find? (fun c => c.name = name) with
  | some c => (db, c)
  | none =>
      let c : Company := { id := db.nextId, name := name }
      ({ db with companies := db.companies ++ [c], nextId := db.nextId + 1 }, c)

/-- Contact resolution by `(name, companyId)`, creating if absent. -/
def upsertContact (db : Db) (name : String) (companyId : ℤ) : Db × Contact :=
  match db.contacts.find? (fun c => c.name = name ∧ c.companyId = companyId) with
  | some c => (db, c)
  | none =>
      let c : Contact := { id := db.nextId, name := name, companyId := companyId }
      ({ db with contacts := db.contacts ++ [c], nextId := db.nextId + 1 }, c)

/-- The error message thrown for a group whose dates do not parse. -/
def invalidDateMsg (g : Group) : String :=
  "Invalid date(s). proposalDate=\"" ++ g.proposalDate ++ "\" dueDate=\"" ++
    g.dueDate ++ "\". Use YYYY-MM-DD or DD/MM/YYYY."

/-- Commit of one group: parse both dates (failing before any store
write when either is null), upsert company and optional contact, then
create the bid with its sanitized scopes in one unit (`g.bidStatus` is
a canonical non-empty status string, so the source's `|| 'Active'` is
the identity).  On failure the group contributes an error entry and no
bid. -/
def commitGroup (db : Db) (key : String) (g : Group) :
    Db × Option Bid × Option (String × String) :=
  match parseDateLoose (some g.proposalDate), parseDateLoose (some g.dueDate) with
  | some pd, some dd =>
      let r1 := upsertCompany db g.clientCompany
      let r2 : Db × Option ℤ :=
        match g.contactName with
        | some cn =>
            let rc := upsertContact r1.1 cn r1.2.id
            (rc.1, some rc.2.id)
        | none => (r1.1, none)
      let bid : Bid :=
        { id := r2.1.nextId
          projectName := g.projectName
          clientCompanyId := some r1.2.id
          contactId := r2.2
          proposalDate := some pd
          dueDate := some dd
          followUpOn := none
          jobLocation := g.jobLocation
          leadSource := g.leadSource
          bidStatus := some (bidStatusStr g.bidStatus)
          scopes := scopeCreatesOf g
          createdAt := r2.1.now
          updatedAt := r2.1.now }
      ({ r2.1 with bids := r2.1.bids ++ [bid], nextId := r2.1.nextId + 1 },
       some bid, none)
  | _, _ => (db, none, some (key, invalidDateMsg g))

/-- The commit loop over the grouped keys in insertion order, collecting
created bids and `{ key, message }` errors. -/
def importLoop (db : Db) : List (String × Group) → Db × List Bid × List (String × String)
  | [] => (db, [], [])
  | (k, g) :: rest =>
      let r := commitGroup db k g
      let rec' := importLoop r.1 rest
      (rec'.1, r.2.1.toList ++ rec'.2.1, r.2.2.toList ++ rec'.2.2)

/-- The always-200 response body `{ imported, errors }`. -/
structure ImportResp where
  imported : ℕ
  errors : List (String × String)
deriving DecidableEq, Repr

/-- POST `/import/bids` after the file-presence check: group the decoded
rows, commit each group independently, and report the count of created
bids alongside the per-group errors. -/
def importBids (rows : List Row) (db : Db) : Db × ImportResp :=
  let grouped := groupRows rows
  let r := importLoop db grouped
  (r.1, { imported := r.2.1.length, errors := r.2.2 })

/-! ## Example fixtures for the concrete witnesses -/

def exScopes3 : List Scope :=
  [⟨"s1", .fin 1, .Pending⟩, ⟨"s2", .fin 2, .Pending⟩, ⟨"s3", .fin 3, .Pending⟩]

def exBid : Bid :=
  { id := 7
    projectName := "P"
    clientCompanyId := some 1
    contactId := none
    proposalDate := none
    dueDate := none
    followUpOn := none
    jobLocation := none
    leadSource := none
    bidStatus := some "Active"
    scopes := exScopes3
    createdAt := 0
    updatedAt := 0 }

def exDb : Db :=
  { bids := [exBid], companies := [], contacts := [], nextId := 8, now := 100 }

def exBody (sf : ScopesField) : BidBody :=
  { projectName := some "P"
    clientCompanyId := some 1
    contactId := none
    proposalDate := none
    dueDate := none
    followUpOn := none
    jobLocation := none
    leadSource := none
    bidStatus := some "Active"
    scopes := sf }

def exScopeIn : ScopeIn := { name := some "new", cost := .str "5", status := some "Won" }

def exRow (pn cc sn : String) (bs : Option String) : Row :=
  { projectName := some pn
    clientCompany := some cc
    contactName := none
    proposalDate := some "2024-03-05"
    dueDate := some "2024-03-05"
    jobLocation := none
    leadSource := none
    bidStatus := bs
    scopeName := some sn
    scopeCost := some "1"
    scopeStatus := none }

/-- The role matrix exactly as the specification states it: ADMIN and
ESTIMATOR get all four actions, MANAGER everything but delete, VIEWER
only read, and an absent role gets nothing. -/
def matrixAllows (u : Option User) (a : Action) : Bool :=
  match u with
  | none => false
  | some usr =>
      match usr.role, a with
      | .ADMIN, _ => true
      | .ESTIMATOR, _ => true
      | .MANAGER, .delete => false
      | .MANAGER, _ => true
      | .VIEWER, .read => true
      | .VIEWER, _ => false

def exGroup : Group :=
  { projectName := "P"
    clientCompany := "C"
    contactName := none
    proposalDate := "2024-03-05"
    dueDate := "2024-03-05"
    jobLocation := none
    leadSource := none
    bidStatus := .Active
    scopes := [⟨"s", 1, none⟩] }

def exBodyBogus : BidBody := { exBody .missing with bidStatus := some "bogus" }

/-- Rows for the bulk-import witnesses: one group with an unparseable
`proposalDate`, one valid sibling group. -/
def exRowsImport : List Row :=
  [{ exRow "p1" "c1" "s1" none with proposalDate := some "garbage" },
   exRow "p2" "c2" "s2" none]

/-- Rows for the status-elevation witness: statuses active, hot, active
in that order on one key. -/
def exRowsC9 : List Row :=
  [exRow "p" "c" "s1" (some "active"), exRow "p" "c" "s2" (some "hot"),
   exRow "p" "c" "s3" (some "active")]

/-- The group the C9 witness rows produce. -/
def exGroupC9 : Group :=
  { projectName := "p"
    clientCompany := "c"
    contactName := none
    proposalDate := "2024-03-05"
    dueDate := "2024-03-05"
    jobLocation := none
    leadSource := none
    bidStatus := .Hot
    scopes := [{ name := "s1", cost := 1, status := none },
               { name := "s2", cost := 1, status := none },
               { name := "s3", cost := 1, status := none }] }

/-! ## Theorems -/

lemma gate_read_eq (u : Option User) : can u .read = matrixAllows u .read := by
  rcases u with _ | ⟨uid, r⟩
  · rfl
  · cases r <;> rfl

lemma gate_create_eq (u : Option User) :
    requireRole [.ADMIN, .MANAGER, .ESTIMATOR] u = matrixAllows u .create := by
  rcases u with _ | ⟨uid, r⟩
  · rfl
  · cases r <;> rfl

lemma gate_update_eq (u : Option User) :
    requireRole [.ADMIN, .MANAGER, .ESTIMATOR] u = matrixAllows u .update := by
  rcases u with _ | ⟨uid, r⟩
  · rfl
  · cases r <;> rfl

lemma gate_delete_eq (u : Option User) :
    requireRole [.ADMIN, .ESTIMATOR] u = matrixAllows u .delete := by
  rcases u with _ | ⟨uid, r⟩
  · rfl
  · cases r <;> rfl

lemma bidsGetList_forbidden_iff (u : Option User) (q : ListQuery) (db : Db) :
    bidsGetList u q db = .forbidden ↔ can u .read = false := by
  unfold bidsGetList
  cases h : can u .read <;> simp [h]

lemma bidsGetOne_forbidden_iff (u : Option User) (idStr : String) (db : Db) :
    bidsGetOne u idStr db = .forbidden ↔ can u .read = false := by
  unfold bidsGetOne
  cases h : can u .read <;> simp [h]
  split <;>
    (first
      | simp
      | (split <;> (first | simp | (split <;> simp))))

lemma bidsPost_forbidden_iff (u : Option User) (body : BidBody) (db : Db) :
    (bidsPost u body db).2 = .forbidden ↔
      requireRole [.ADMIN, .MANAGER, .ESTIMATOR] u = false := by
  unfold bidsPost
  cases h : requireRole [.ADMIN, .MANAGER, .ESTIMATOR] u <;> simp [h]

lemma bidsPost_forbidden_db (u : Option User) (body : BidBody) (db : Db)
    (h : (bidsPost u body db).2 = .forbidden) : (bidsPost u body db).1 = db := by
  unfold bidsPost at *
  cases hg : requireRole [.ADMIN, .MANAGER, .ESTIMATOR] u <;> simp_all [hg]

lemma bidsPut_forbidden_iff (u : Option User) (idStr : String) (body : BidBody) (db : Db) :
    (bidsPut u idStr body db).2 = .forbidden ↔
      requireRole [.ADMIN, .MANAGER, .ESTIMATOR] u = false := by
  unfold bidsPut
  cases h : requireRole [.ADMIN, .MANAGER, .ESTIMATOR] u <;> simp [h]
  split <;> (first | simp | (split <;> simp))

lemma bidsPut_forbidden_db (u : Option User) (idStr : String) (body : BidBody) (db : Db)
    (h : (bidsPut u idStr body db).2 = .forbidden) : (bidsPut u idStr body db).1 = db := by
  by_cases hg : requireRole [.ADMIN, .MANAGER, .ESTIMATOR] u = false
  · unfold bidsPut
    simp [hg]
  · exact absurd ((bidsPut_forbidden_iff u idStr body db).mp h) hg

lemma bidsDelete_forbidden_iff (u : Option User) (idStr : String) (db : Db) :
    (bidsDelete u idStr db).2 = .forbidden ↔
      requireRole [.ADMIN, .ESTIMATOR] u = false := by
  unfold bidsDelete
  cases h : requireRole [.ADMIN, .ESTIMATOR] u <;> simp [h]
  split <;> (first | simp | (split <;> simp))

lemma bidsDelete_forbidden_db (u : Option User) (idStr : String) (db : Db)
    (h : (bidsDelete u idStr db).2 = .forbidden) : (bidsDelete u idStr db).1 = db := by
  by_cases hg : requireRole [.ADMIN, .ESTIMATOR] u = false
  · unfold bidsDelete
    simp [hg]
  · exact absurd ((bidsDelete_forbidden_iff u idStr db).mp h) hg

/-- C2: for every caller and every bid operation, access is granted
exactly per the fixed role matrix (ADMIN/ESTIMATOR: read, create,
update, delete; MANAGER: read, create, update; VIEWER: read), and a
request whose caller has no role or whose role does not list the action
is answered with Forbidden while the store is left untouched. -/
theorem C2_permission_matrix (u : Option User) (q : ListQuery) (idStr : String)
    (body : BidBody) (db : Db) :
    ((bidsGetList u q db = .forbidden) ↔ matrixAllows u .read = false) ∧
    ((bidsGetOne u idStr db = .forbidden) ↔ matrixAllows u .read = false) ∧
    (((bidsPost u body db).2 = .forbidden) ↔ matrixAllows u .create = false) ∧
    ((bidsPost u body db).2 = .forbidden → (bidsPost u body db).1 = db) ∧
    (((bidsPut u idStr body db).2 = .forbidden) ↔ matrixAllows u .update = false) ∧
    ((bidsPut u idStr body db).2 = .forbidden → (bidsPut u idStr body db).1 = db) ∧
    (((bidsDelete u idStr db).2 = .forbidden) ↔ matrixAllows u .delete = false) ∧
    ((bidsDelete u idStr db).2 = .forbidden → (bidsDelete u idStr db).1 = db) := by
  refine ⟨?_, ?_, ?_, ?_, ?_, ?_, ?_, ?_⟩
  · rw [bidsGetList_forbidden_iff, gate_read_eq]
  · rw [bidsGetOne_forbidden_iff, gate_read_eq]
  · rw [bidsPost_forbidden_iff, gate_create_eq]
  · exact bidsPost_forbidden_db u body db
  · rw [bidsPut_forbidden_iff, gate_update_eq]
  · exact bidsPut_forbidden_db u idStr body db
  · rw [bidsDelete_forbidden_iff, gate_delete_eq]
  · exact bidsDelete_forbidden_db u idStr db

/-- Concrete witness for C2: a VIEWER calling delete is denied with
Forbidden and the store is unchanged, while an ESTIMATOR deleting is
not denied. -/
theorem C2_permission_matrix_witness :
    (bidsDelete (some ⟨1, .VIEWER⟩) "7" exDb).2 = .forbidden ∧
    (bidsDelete (some ⟨1, .VIEWER⟩) "7" exDb).1 = exDb ∧
    ¬ (bidsDelete (some ⟨1, .ESTIMATOR⟩) "7" exDb).2 = .forbidden := by
  have h := C2_permission_matrix (some ⟨1, .VIEWER⟩) ⟨none, none⟩ "7"
    (exBody .missing) exDb
  have h2 := C2_permission_matrix (some ⟨1, .ESTIMATOR⟩) ⟨none, none⟩ "7"
    (exBody .missing) exDb
  have hf : (bidsDelete (some ⟨1, .VIEWER⟩) "7" exDb).2 = .forbidden :=
    h.2.2.2.2.2.2.1.mpr rfl
  refine ⟨hf, h.2.2.2.2.2.2.2 hf, ?_⟩
  intro hcon
  have := h2.2.2.2.2.2.2.1.mp hcon
  simp [matrixAllows] at this

/-! ### C5 — scope cost coercion -/

/-- C5 counterexample: the bid create/update sanitizer persists the
cost `-5` for the well-formed input string `"-5"` (a negative, not
non-negative, value) and the non-finite cost `Infinity` for the input
string `"Infinity"` — refuting "every persisted scope cost is a finite
non-negative number". -/
theorem C5_cost_counterexample :
    sanitizeScopes (.arr [{ name := some "a", cost := .str "-5", status := none }]) =
      [{ name := "a", cost := .fin (-5), status := .Pending }] ∧
    ((-5 : ℚ) < 0) ∧
    sanitizeScopes (.arr [{ name := some "b", cost := .str "Infinity", status := none }]) =
      [{ name := "b", cost := .inf, status := .Pending }] ∧
    JsNum.isFinite .inf = false := by
  refine ⟨by decide, by norm_num, by decide, rfl⟩

lemma sanitizeCost_ne_nan (c : CostIn) : ¬ sanitizeCost c = JsNum.nan := by
  have key : ∀ n : JsNum, ¬ (if n.truthy then n else JsNum.fin 0) = JsNum.nan := by
    intro n
    cases n with
    | nan => simp [JsNum.truthy]
    | inf => simp [JsNum.truthy]
    | negInf => simp [JsNum.truthy]
    | fin q => by_cases hq : q = 0 <;> simp [JsNum.truthy, hq]
  cases c with
  | missing => exact key (JsNum.fin 0)
  | num x => exact key x
  | str s => exact key (jsNumOfString s)

/-- C5 amended: every scope persisted by bulk import has a finite cost;
the bid create/update sanitizer guarantees only a non-NaN cost (NaN
input coerces to 0, but negative and infinite values pass through, as
the counterexample shows); malformed input coerces to 0 on both paths
and never raises (all coercions are total functions). -/
theorem C5_cost_amended :
    (∀ g : Group, ∀ s ∈ scopeCreatesOf g, s.cost.isFinite = true) ∧
    (∀ sf : ScopesField, ∀ s ∈ sanitizeScopes sf, ¬ s.cost = JsNum.nan) ∧
    (∀ str : String, jsNumOfString str = JsNum.nan → sanitizeCost (.str str) = .fin 0) ∧
    (∀ x : Option String,
        jsNumOfString (stripCommaSpace (x.getD "")) = JsNum.nan → toNumberOrZero x = 0) := by
  refine ⟨?_, ?_, ?_, ?_⟩
  · intro g s hs
    obtain ⟨d, hd, rfl⟩ := List.mem_map.mp hs
    rfl
  · intro sf s hs
    cases sf with
    | arr xs =>
        have hs' := List.mem_of_mem_filter hs
        obtain ⟨si, hsi, rfl⟩ := List.mem_map.mp hs'
        exact sanitizeCost_ne_nan si.cost
    | missing => simp [sanitizeScopes] at hs
    | null => simp [sanitizeScopes] at hs
    | notArray => simp [sanitizeScopes] at hs
  · intro str h
    unfold sanitizeCost
    simp [h, JsNum.truthy]
  · intro x h
    unfold toNumberOrZero
    rw [h]

/-- Concrete witness for C5's amended theorem. -/
theorem C5_cost_amended_witness :
    JsNum.isFinite (Scope.cost { name := "s", cost := .fin 1, status := .Pending }) = true ∧
    sanitizeCost (.str "abc") = .fin 0 ∧
    toNumberOrZero (some "abc") = 0 := by
  have h := C5_cost_amended
  exact ⟨h.1 exGroup { name := "s", cost := .fin 1, status := .Pending } (by decide),
         h.2.2.1 "abc" (by decide),
         h.2.2.2 (some "abc") (by decide)⟩

/-! ### C6 — loose date parsing -/

/-- C6 counterexample: `"31/02/2024"` does not denote a valid calendar
date (February has at most 29 days), yet `parseDateLoose` returns
March 2, 2024 by arithmetic rollover instead of `null`. -/
theorem C6_date_counterexample :
    parseDateLoose (some "31/02/2024") = some (daysFromCivil 2024 3 2) ∧
    daysInMonth 2024 2 < 31 ∧
    ¬ parseDateLoose (some "31/02/2024") = none := by
  refine ⟨by decide, by decide, by decide⟩

/-- C6 amended: ISO-prefixed strings are parsed directly
(`"2024-03-05"` is March 5, 2024); every trimmed string matching the
1–2-digit / 1–2-digit / 4-digit pattern is interpreted day-first
(first field day, second month) via `Date.UTC`, which accepts
out-of-range fields by rollover; `"05/03/2024"` is March 5, 2024; and
input matching neither pattern that generic parsing rejects yields
`null` (`"not a date"`); the function is total, so it never raises. -/
theorem C6_date_amended (s : String) (a b y : ℕ)
    (hne : ¬ s = "") (hiso : isoPrefixTest (jsTrim s).data = false)
    (hm : dmyMatch (jsTrim s).data = some (a, b, y)) :
    parseDateLoose (some "2024-03-05") = some (daysFromCivil 2024 3 5) ∧
    parseDateLoose (some s) = some (jsMakeDay y ((b : ℤ) - 1) a) ∧
    parseDateLoose (some "05/03/2024") = some (daysFromCivil 2024 3 5) ∧
    parseDateLoose (some "not a date") = none := by
  refine ⟨by decide, ?_, by decide, by decide⟩
  unfold parseDateLoose
  simp [hne, hiso, hm]

/-- Concrete witness for C6's amended theorem: the day-first reading of
`"05/03/2024"`. -/
theorem C6_date_amended_witness :
    parseDateLoose (some "05/03/2024") = some (jsMakeDay 2024 2 5) ∧
    jsMakeDay 2024 2 5 = daysFromCivil 2024 3 5 :=
  ⟨(C6_date_amended "05/03/2024" 5 3 2024 (by decide) (by decide) (by decide)).2.1,
   by decide⟩

/-! ### C3 — independent per-group commits -/

lemma upsertCompany_bids (db : Db) (n : String) : (upsertCompany db n).1.bids = db.bids := by
  unfold upsertCompany
  split <;> rfl

lemma upsertContact_bids (db : Db) (n : String) (cid : ℤ) :
    (upsertContact db n cid).1.bids = db.bids := by
  unfold upsertContact
  split <;> rfl

lemma upsertCompany_now (db : Db) (n : String) : (upsertCompany db n).1.now = db.now := by
  unfold upsertCompany
  split <;> rfl

lemma upsertContact_now (db : Db) (n : String) (cid : ℤ) :
    (upsertContact db n cid).1.now = db.now := by
  unfold upsertContact
  split <;> rfl

lemma commitGroup_invalid (db : Db) (k : String) (g : Group) (h : groupValid g = false) :
    commitGroup db k g = (db, none, some (k, invalidDateMsg g)) := by
  unfold groupValid at h
  unfold commitGroup
  cases hp : parseDateLoose (some g.proposalDate) with
  | none => cases hd : parseDateLoose (some g.dueDate) <;> simp [hp, hd]
  | some pd =>
      cases hd : parseDateLoose (some g.dueDate) with
      | none => simp [hp, hd]
      | some dd => rw [hp, hd] at h; simp at h

lemma commitGroup_valid (db : Db) (k : String) (g : Group) (h : groupValid g = true) :
    ∃ db' bid, commitGroup db k g = (db', some bid, none) ∧
      db'.bids = db.bids ++ [bid] ∧
      bid.projectName = g.projectName ∧
      bid.scopes = scopeCreatesOf g ∧
      bid.bidStatus = some (bidStatusStr g.bidStatus) := by
  unfold groupValid at h
  cases hp : parseDateLoose (some g.proposalDate) with
  | none => rw [hp] at h; simp at h
  | some pd =>
      cases hd : parseDateLoose (some g.dueDate) with
      | none => rw [hp, hd] at h; simp at h
      | some dd =>
          unfold commitGroup
          rw [hp, hd]
          refine ⟨_, _, rfl, ?_, rfl, rfl, rfl⟩
          cases hc : g.contactName with
          | none => simp [hc, upsertCompany_bids]
          | some cn => simp [hc, upsertContact_bids, upsertCompany_bids]

lemma importLoop_spec (gs : List (String × Group)) : ∀ db : Db,
    (importLoop db gs).2.2 =
      (gs.filter (fun p => !groupValid p.2)).map (fun p => (p.1, invalidDateMsg p.2)) ∧
    (importLoop db gs).1.bids = db.bids ++ (importLoop db gs).2.1 ∧
    (importLoop db gs).2.1.length = (gs.filter (fun p => groupValid p.2)).length ∧
    (∀ b ∈ (importLoop db gs).2.1, ∃ p, p ∈ gs ∧ groupValid p.2 = true ∧
        b.projectName = p.2.projectName ∧ b.scopes = scopeCreatesOf p.2 ∧
        b.bidStatus = some (bidStatusStr p.2.bidStatus)) ∧
    (∀ p, p ∈ gs → groupValid p.2 = true →
        ∃ b, b ∈ (importLoop db gs).2.1 ∧ b.projectName = p.2.projectName ∧
          b.scopes = scopeCreatesOf p.2) := by
  induction gs with
  | nil =>
      intro db
      refine ⟨rfl, by simp [importLoop], rfl, ?_, ?_⟩
      · intro b hb; simp [importLoop] at hb
      · intro p hp; simp at hp
  | cons hd tl ih =>
      intro db
      obtain ⟨k, g⟩ := hd
      by_cases hv : groupValid g = true
      · obtain ⟨db', bid, hcg, hbids, hpn, hsc, hst⟩ := commitGroup_valid db k g hv
        have hloop : importLoop db ((k, g) :: tl) =
            ((importLoop db' tl).1, bid :: (importLoop db' tl).2.1,
             (importLoop db' tl).2.2) := by
          simp [importLoop, hcg]
        obtain ⟨ihe, ihb, ihl, ihfwd, ihbwd⟩ := ih db'
        refine ⟨?_, ?_, ?_, ?_, ?_⟩
        · rw [hloop]
          simp [hv, ihe]
        · rw [hloop]
          simp only [ihb, hbids]
          simp
        · rw [hloop]
          simp [hv, ihl]
        · rw [hloop]
          intro b hb
          rcases List.mem_cons.mp hb with hb | hb
          · exact ⟨(k, g), List.mem_cons_self _ _, hv, hb ▸ hpn, hb ▸ hsc, hb ▸ hst⟩
          · obtain ⟨p, hpmem, hpv, h1, h2, h3⟩ := ihfwd b hb
            exact ⟨p, List.mem_cons_of_mem _ hpmem, hpv, h1, h2, h3⟩
        · rw [hloop]
          intro p hpmem hpv
          rcases List.mem_cons.mp hpmem with rfl | hpmem
          · exact ⟨bid, List.mem_cons_self _ _, hpn, hsc⟩
          · obtain ⟨b, hbmem, h1, h2⟩ := ihbwd p hpmem hpv
            exact ⟨b, List.mem_cons_of_mem _ hbmem, h1, h2⟩
      · have hv' : groupValid g = false := by simpa using hv
        have hcg := commitGroup_invalid db k g hv'
        have hloop : importLoop db ((k, g) :: tl) =
            ((importLoop db tl).1, (importLoop db tl).2.1,
             (k, invalidDateMsg g) :: (importLoop db tl).2.2) := by
          simp [importLoop, hcg]
        obtain ⟨ihe, ihb, ihl, ihfwd, ihbwd⟩ := ih db
        refine ⟨?_, ?_, ?_, ?_, ?_⟩
        · rw [hloop]
          simp [hv', ihe]
        · rw [hloop]
          simpa using ihb
        · rw [hloop]
          simp [hv', ihl]
        · rw [hloop]
          intro b hb
          obtain ⟨p, hpmem, hpv, h1, h2, h3⟩ := ihfwd b hb
          exact ⟨p, List.mem_cons_of_mem _ hpmem, hpv, h1, h2, h3⟩
        · rw [hloop]
          intro p hpmem hpv
          rcases List.mem_cons.mp hpmem with rfl | hpmem
          · rw [hv'] at hpv; exact absurd hpv (by simp)
          · exact ihbwd p hpmem hpv

/-- C3: every bulk-import group commits independently.  A group whose
`proposalDate` or `dueDate` parses to null contributes exactly one
error entry carrying the raw strings (`invalidDateMsg`) and no bid;
created bids correspond exactly to the groups whose dates parse
(sibling valid groups commit even when other groups fail); and the
operation always produces a `{ imported, errors }` response in which
`imported` counts the created bids. -/
theorem C3_import_group_isolation (rows : List Row) (db : Db) :
    ((importBids rows db).2.errors =
        ((groupRows rows).filter (fun p => !groupValid p.2)).map
          (fun p => (p.1, invalidDateMsg p.2))) ∧
    (∃ created : List Bid,
        (importBids rows db).1.bids = db.bids ++ created ∧
        created.length = (importBids rows db).2.imported ∧
        (∀ b ∈ created, ∃ p, p ∈ groupRows rows ∧ groupValid p.2 = true ∧
            b.projectName = p.2.projectName ∧ b.scopes = scopeCreatesOf p.2) ∧
        (∀ p, p ∈ groupRows rows → groupValid p.2 = true →
            ∃ b, b ∈ created ∧ b.projectName = p.2.projectName ∧
              b.scopes = scopeCreatesOf p.2)) ∧
    ((importBids rows db).2.imported =
        ((groupRows rows).filter (fun p => groupValid p.2)).length) := by
  obtain ⟨he, hb, hl, hfwd, hbwd⟩ := importLoop_spec (groupRows rows) db
  refine ⟨he, ⟨(importLoop db (groupRows rows)).2.1, hb, rfl, ?_, ?_⟩, hl⟩
  · intro b hbmem
    obtain ⟨p, h1, h2, h3, h4, _⟩ := hfwd b hbmem
    exact ⟨p, h1, h2, h3, h4⟩
  · exact hbwd

/-- Concrete witness for C3: a group with `proposalDate = "garbage"`
is reported in `errors` with the message naming the raw strings, while
the sibling valid group still commits and is counted. -/
theorem C3_import_group_isolation_witness :
    (importBids exRowsImport exDb).2.errors =
      [("p1||c1",
        "Invalid date(s). proposalDate=\"garbage\" dueDate=\"2024-03-05\". Use YYYY-MM-DD or DD/MM/YYYY.")] ∧
    (importBids exRowsImport exDb).2.imported = 1 := by
  have h := C3_import_group_isolation exRowsImport exDb
  exact ⟨h.1.trans (by decide), h.2.2.trans (by decide)⟩

/-! ### C8 — bidStatus canonicalization -/

/-- C8 counterexample: POST `/bids` forwards the unrecognized
`bidStatus` value `"bogus"` verbatim to the store — the persisted bid
carries `"bogus"`, which is neither one of the five canonical values
nor defaulted to `Active` (even though `cleanBidStatus` would map it to
`Active`, the route never calls it). -/
theorem C8_bidStatus_counterexample :
    ((bidsPost (some ⟨1, .ADMIN⟩) exBodyBogus exDb).1.bids.map Bid.bidStatus) =
      [some "Active", some "bogus"] ∧
    cleanBidStatus (some "bogus") = .Active ∧
    ¬ "bogus" ∈ ["Active", "Complete", "Archived", "Hot", "Cold"] := by
  refine ⟨by decide, by decide, by decide⟩

lemma bidUpdate_ok_shape (idq : ℚ) (body : BidBody) (scopes : List Scope) (db : Db)
    (db2 : Db) (b : Bid) (h : bidUpdate idq body scopes db = .ok (db2, b)) :
    ∃ b0, db.bids.find? (fun x => (x.id : ℚ) = idq) = some b0 ∧
      b = bidUpdateData body scopes db.now b0 := by
  unfold bidUpdate at h
  cases hf : db.bids.find? (fun x => (x.id : ℚ) = idq) with
  | none => rw [hf] at h; exact absurd h (by simp)
  | some b0 =>
      rw [hf] at h
      refine ⟨b0, rfl, ?_⟩
      have := congrArg (fun r => match r with
        | Except.ok (p : Db × Bid) => p.2
        | Except.error _ => b) h
      simpa using this.symm

lemma bidsPut_ok_fields (u : Option User) (idStr : String) (body : BidBody) (db : Db)
    (b : Bid) (h : (bidsPut u idStr body db).2 = .ok b) :
    b.bidStatus = body.bidStatus ∧ b.scopes = sanitizeScopes body.scopes := by
  unfold bidsPut at h
  by_cases hg : requireRole [.ADMIN, .MANAGER, .ESTIMATOR] u = true
  · simp only [hg] at h
    simp at h
    split at h
    next idq heq =>
      split at h
      next db2 bb heq2 =>
        simp at h
        obtain ⟨b0, hfind, hshape⟩ :=
          bidUpdate_ok_shape _ _ _ _ _ _ heq2
        have hb0 : b0.scopes = [] := by
          have hmem := List.mem_of_find?_eq_some hfind
          have hpred := List.find?_some hfind
          obtain ⟨b1, hb1, hres⟩ := List.mem_map.mp hmem
          by_cases hid : (b1.id : ℚ) = idq
          · rw [← hres]; simp [hid]
          · rw [← hres] at hpred
            simp [hid] at hpred
        rw [← h, hshape]
        unfold bidUpdateData
        refine ⟨rfl, ?_⟩
        simp [hb0]
      next e heq2 => simp at h
    next x heq => simp at h
  · simp only [Bool.not_eq_true] at hg
    simp [hg] at h

/-- C8 amended: `cleanBidStatus` trims, lower-cases, maps the synonym
table and sends every unmapped value — including empty and missing — to
`Active`, never `undefined`; every bid persisted by the bulk-import
path carries one of the five canonical statuses; but the direct
create/update routes forward the caller's `bidStatus` verbatim, so the
enum invariant and Active-defaulting do not come from this code on
those paths (as the counterexample shows). -/
theorem C8_bidStatus_amended :
    (cleanBidStatus none = .Active) ∧
    (cleanBidStatus (some "") = .Active) ∧
    (cleanBidStatus (some "completed") = .Complete) ∧
    (cleanBidStatus (some "ARCHIVE") = .Archived) ∧
    (∀ s : Option String,
        ¬ jsToLower (jsTrim (s.getD "")) ∈
            ["active", "complete", "completed", "archive", "archived", "hot", "cold"] →
        cleanBidStatus s = .Active) ∧
    (∀ rows db, ∀ b ∈ (importBids rows db).1.bids,
        b ∈ db.bids ∨ ∃ st : BidStatus, b.bidStatus = some (bidStatusStr st)) ∧
    (∀ u body db b, (bidsPost u body db).2 = .created b → b.bidStatus = body.bidStatus) ∧
    (∀ u idStr body db b,
        (bidsPut u idStr body db).2 = .ok b → b.bidStatus = body.bidStatus) := by
  refine ⟨by decide, by decide, by decide, by decide, ?_, ?_, ?_, ?_⟩
  · intro s hmem
    simp only [cleanBidStatus]
    split_ifs with h1 h2 h3 h4 h5 h6 h7
    · rfl
    · exact absurd (by rw [h2]; simp) hmem
    · exact absurd (by rw [h3]; simp) hmem
    · exact absurd (by rw [h4]; simp) hmem
    · exact absurd (by rw [h5]; simp) hmem
    · exact absurd (by rw [h6]; simp) hmem
    · exact absurd (by rw [h7]; simp) hmem
    · rfl
  · intro rows db b hb
    obtain ⟨_, hbids, _, hfwd, _⟩ := importLoop_spec (groupRows rows) db
    have hb' : b ∈ db.bids ++ (importLoop db (groupRows rows)).2.1 := by
      rw [← hbids]; exact hb
    rcases List.mem_append.mp hb' with hold | hnew
    · exact .inl hold
    · obtain ⟨p, _, _, _, _, hst⟩ := hfwd b hnew
      exact .inr ⟨p.2.bidStatus, hst⟩
  · intro u body db b h
    unfold bidsPost at h
    by_cases hg : requireRole [.ADMIN, .MANAGER, .ESTIMATOR] u = true
    · simp [hg] at h
      rw [← h]
      rfl
    · simp only [Bool.not_eq_true] at hg
      simp [hg] at h
  · intro u idStr body db b h
    exact (bidsPut_ok_fields u idStr body db b h).1

/-- Concrete witness for C8's amended theorem. -/
theorem C8_bidStatus_amended_witness :
    cleanBidStatus (some "bogus") = .Active ∧
    (bidsPost (some ⟨1, .ADMIN⟩) exBodyBogus exDb).2 =
      .created (postNewBid exBodyBogus exDb) ∧
    (postNewBid exBodyBogus exDb).bidStatus = some "bogus" := by
  have h := C8_bidStatus_amended
  refine ⟨h.2.2.2.2.1 (some "bogus") (by decide), by decide, ?_⟩
  have := h.2.2.2.2.2.2.1 (some ⟨1, .ADMIN⟩) exBodyBogus exDb
    (postNewBid exBodyBogus exDb) (by decide)
  rw [this]
  rfl

/-! ### C1 — atomic scope replacement on update -/

lemma find?_map_pres (l : List Bid) (f : Bid → Bid) (p : Bid → Bool)
    (hp : ∀ b, p (f b) = p b) : (l.map f).find? p = (l.find? p).map f := by
  rw [List.find?_map]
  have hpf : p ∘ f = p := funext hp
  rw [hpf]

/-- The reset applied by `scope.deleteMany` to each bid row. -/
def resetScopes (idq : ℚ) (b : Bid) : Bid :=
  if (b.id : ℚ) = idq then { b with scopes := [] } else b

lemma resetScopes_pred (idq : ℚ) (b : Bid) :
    (decide ((resetScopes idq b).id = idq)) = (decide ((b.id : ℚ) = idq)) := by
  unfold resetScopes
  by_cases h : (b.id : ℚ) = idq <;> simp [h]

lemma scopeDeleteMany_bids (idq : ℚ) (db : Db) :
    (scopeDeleteMany idq db).bids = db.bids.map (resetScopes idq) := rfl

lemma bidsPut_success (u : Option User) (idStr : String) (body : BidBody) (db : Db)
    (idq : ℚ) (b0 : Bid)
    (hrole : requireRole [.ADMIN, .MANAGER, .ESTIMATOR] u = true)
    (hid : jsNumOfString idStr = .fin idq)
    (hfind : db.bids.find? (fun b => (b.id : ℚ) = idq) = some b0) :
    bidsPut u idStr body db =
      ({ db with bids := db.bids.map (fun b =>
           if (b.id : ℚ) = idq then
             bidUpdateData body (sanitizeScopes body.scopes) db.now { b with scopes := [] }
           else b) },
       .ok (bidUpdateData body (sanitizeScopes body.scopes) db.now { b0 with scopes := [] })) := by
  have hp0 : ((b0.id : ℚ) = idq) := by
    have := List.find?_some hfind
    simpa using this
  have hfind2 : (scopeDeleteMany idq db).bids.find? (fun b => (b.id : ℚ) = idq) =
      some { b0 with scopes := [] } := by
    rw [scopeDeleteMany_bids,
      find?_map_pres db.bids (resetScopes idq) _ (resetScopes_pred idq), hfind]
    unfold resetScopes
    simp [hp0]
  have hbu : bidUpdate idq body (sanitizeScopes body.scopes) (scopeDeleteMany idq db) =
      .ok ({ scopeDeleteMany idq db with
              bids := (scopeDeleteMany idq db).bids.map (fun b =>
                if (b.id : ℚ) = idq then
                  bidUpdateData body (sanitizeScopes body.scopes)
                    (scopeDeleteMany idq db).now b
                else b) },
           bidUpdateData body (sanitizeScopes body.scopes)
             (scopeDeleteMany idq db).now { b0 with scopes := [] }) := by
    unfold bidUpdate
    rw [hfind2]
  have hnow : (scopeDeleteMany idq db).now = db.now := rfl
  have hmap : (scopeDeleteMany idq db).bids.map (fun b =>
        if (b.id : ℚ) = idq then
          bidUpdateData body (sanitizeScopes body.scopes) db.now b
        else b) =
      db.bids.map (fun b =>
        if (b.id : ℚ) = idq then
          bidUpdateData body (sanitizeScopes body.scopes) db.now { b with scopes := [] }
        else b) := by
    rw [scopeDeleteMany_bids, List.map_map]
    apply List.map_congr_left
    intro b _
    by_cases hb : (b.id : ℚ) = idq
    · simp [Function.comp, resetScopes, hb]
    · simp [Function.comp, resetScopes, hb]
  unfold bidsPut
  rw [if_neg (by simp [hrole]), hid]
  show (match bidUpdate idq body (sanitizeScopes body.scopes) (scopeDeleteMany idq db) with
        | .ok (db2, b) => (db2, PutResp.ok b)
        | .error _ => (db, PutResp.txError)) = _
  rw [hbu, hnow, hmap]
  rfl

lemma bidsPut_notfound (u : Option User) (idStr : String) (body : BidBody) (db : Db)
    (idq : ℚ)
    (hrole : requireRole [.ADMIN, .MANAGER, .ESTIMATOR] u = true)
    (hid : jsNumOfString idStr = .fin idq)
    (hfind : db.bids.find? (fun b => (b.id : ℚ) = idq) = none) :
    bidsPut u idStr body db = (db, .txError) := by
  have hfind2 : (scopeDeleteMany idq db).bids.find? (fun b => (b.id : ℚ) = idq) = none := by
    rw [scopeDeleteMany_bids,
      find?_map_pres db.bids (resetScopes idq) _ (resetScopes_pred idq), hfind]
    rfl
  have hbu : bidUpdate idq body (sanitizeScopes body.scopes) (scopeDeleteMany idq db) =
      .error "Record to update not found." := by
    unfold bidUpdate
    rw [hfind2]
  unfold bidsPut
  rw [if_neg (by simp [hrole]), hid]
  show (match bidUpdate idq body (sanitizeScopes body.scopes) (scopeDeleteMany idq db) with
        | .ok (db2, b) => (db2, PutResp.ok b)
        | .error _ => (db, PutResp.txError)) = _
  rw [hbu]

lemma bidUpdateData_scopes (body : BidBody) (s : List Scope) (now : ℤ) (b : Bid) :
    (bidUpdateData body s now b).scopes = b.scopes ++ s := rfl

/-- C1: PUT `/bids/:id` replaces the whole scope set atomically with the
bid-field update.  On success exactly the sanitized incoming scopes are
persisted for the target bid (the old set is gone) and every other bid
is untouched; when the transaction fails (the bid does not exist, so
`bid.update` throws) the store is exactly the pre-request store —
no partial deletion survives. -/
theorem C1_put_replace_atomic (u : Option User) (idStr : String) (body : BidBody)
    (db : Db) (idq : ℚ)
    (hrole : requireRole [.ADMIN, .MANAGER, .ESTIMATOR] u = true)
    (hid : jsNumOfString idStr = .fin idq) :
    (∀ b0, db.bids.find? (fun b => (b.id : ℚ) = idq) = some b0 →
        ∃ bResp, (bidsPut u idStr body db).2 = .ok bResp ∧
          bResp.scopes = sanitizeScopes body.scopes ∧
          (bidsPut u idStr body db).1.bids = db.bids.map (fun b =>
            if (b.id : ℚ) = idq then
              bidUpdateData body (sanitizeScopes body.scopes) db.now { b with scopes := [] }
            else b) ∧
          (∀ b ∈ (bidsPut u idStr body db).1.bids,
             ((b.id : ℚ) = idq → b.scopes = sanitizeScopes body.scopes) ∧
             (¬ (b.id : ℚ) = idq → b ∈ db.bids))) ∧
    (db.bids.find? (fun b => (b.id : ℚ) = idq) = none →
        bidsPut u idStr body db = (db, .txError)) := by
  constructor
  · intro b0 hfind
    have hs := bidsPut_success u idStr body db idq b0 hrole hid hfind
    refine ⟨bidUpdateData body (sanitizeScopes body.scopes) db.now { b0 with scopes := [] },
      by rw [hs], by rw [bidUpdateData_scopes]; rfl, by rw [hs], ?_⟩
    intro b hb
    rw [hs] at hb
    obtain ⟨b1, hb1, rfl⟩ := List.mem_map.mp hb
    constructor
    · intro hbid
      by_cases h1 : (b1.id : ℚ) = idq
      · rw [if_pos h1, bidUpdateData_scopes]
        rfl
      · rw [if_neg h1] at hbid
        exact absurd hbid h1
    · intro hbid
      by_cases h1 : (b1.id : ℚ) = idq
      · exfalso
        apply hbid
        rw [if_pos h1]
        exact h1
      · rw [if_neg h1]
        exact hb1
  · intro hfind
    exact bidsPut_notfound u idStr body db idq hrole hid hfind

/-- Concrete witness for C1: updating the 3-scope bid 7 with a 1-scope
payload leaves exactly that one scope; updating the absent id 9 fails
and the 3 prior scopes survive untouched. -/
theorem C1_put_replace_atomic_witness :
    ((bidsPut (some ⟨1, .ADMIN⟩) "7" (exBody (.arr [exScopeIn])) exDb).1.bids.map
        (fun b => b.scopes)) = [[⟨"new", .fin 5, .Won⟩]] ∧
    bidsPut (some ⟨1, .ADMIN⟩) "9" (exBody (.arr [exScopeIn])) exDb = (exDb, .txError) := by
  have h7 := (C1_put_replace_atomic (some ⟨1, .ADMIN⟩) "7" (exBody (.arr [exScopeIn]))
    exDb 7 (by decide) (by decide)).1 exBid (by decide)
  have h9 := (C1_put_replace_atomic (some ⟨1, .ADMIN⟩) "9" (exBody (.arr [exScopeIn]))
    exDb 9 (by decide) (by decide)).2 (by decide)
  obtain ⟨bResp, _, _, hbids, _⟩ := h7
  constructor
  · rw [hbids]
    decide
  · exact h9

/-! ### C10 — missing / null / non-array scopes payloads -/

/-- C10: when the `scopes` field of a create or update payload is
missing, null, or not an array, sanitization yields `[]` and the
operation still succeeds: the create persists the bid with zero scopes,
and the update succeeds, deleting every previously existing scope of
the bid and leaving it with zero scopes. -/
theorem C10_nonarray_scopes (u : Option User) (body : BidBody) (db : Db)
    (idStr : String) (idq : ℚ) (b0 : Bid)
    (hsf : body.scopes = .missing ∨ body.scopes = .null ∨ body.scopes = .notArray)
    (hrole : requireRole [.ADMIN, .MANAGER, .ESTIMATOR] u = true)
    (hid : jsNumOfString idStr = .fin idq)
    (hfind : db.bids.find? (fun b => (b.id : ℚ) = idq) = some b0) :
    sanitizeScopes body.scopes = [] ∧
    (bidsPost u body db).2 = .created (postNewBid body db) ∧
    (postNewBid body db).scopes = [] ∧
    (bidsPost u body db).1.bids = db.bids ++ [postNewBid body db] ∧
    (∃ bResp, (bidsPut u idStr body db).2 = .ok bResp ∧ bResp.scopes = [] ∧
       (∀ b ∈ (bidsPut u idStr body db).1.bids,
          (b.id : ℚ) = idq → b.scopes = [])) := by
  have hempty : sanitizeScopes body.scopes = [] := by
    rcases hsf with h | h | h <;> rw [h] <;> rfl
  have hpost : bidsPost u body db =
      ({ db with bids := db.bids ++ [postNewBid body db], nextId := db.nextId + 1 },
       .created (postNewBid body db)) := by
    unfold bidsPost
    rw [if_neg (by simp [hrole])]
  refine ⟨hempty, by rw [hpost], ?_, by rw [hpost], ?_⟩
  · show sanitizeScopes body.scopes = []
    exact hempty
  · have hs := bidsPut_success u idStr body db idq b0 hrole hid hfind
    refine ⟨bidUpdateData body (sanitizeScopes body.scopes) db.now { b0 with scopes := [] },
      by rw [hs], ?_, ?_⟩
    · rw [bidUpdateData_scopes, hempty]
      rfl
    · intro b hb hbid
      rw [hs] at hb
      obtain ⟨b1, hb1, rfl⟩ := List.mem_map.mp hb
      by_cases h1 : (b1.id : ℚ) = idq
      · rw [if_pos h1, bidUpdateData_scopes, hempty]
        rfl
      · rw [if_neg h1] at hbid
        exact absurd hbid h1

/-- Concrete witness for C10: a null `scopes` payload still updates bid
7, deleting its 3 scopes, and a create with a missing `scopes` field
persists a bid with zero scopes. -/
theorem C10_nonarray_scopes_witness :
    sanitizeScopes (exBody .null).scopes = [] ∧
    (postNewBid (exBody .null) exDb).scopes = [] ∧
    ((bidsPut (some ⟨1, .ADMIN⟩) "7" (exBody .null) exDb).1.bids.map
        (fun b => b.scopes)) = [[]] := by
  have h := C10_nonarray_scopes (some ⟨1, .ADMIN⟩) (exBody .null) exDb "7" 7 exBid
    (.inr (.inl rfl)) (by decide) (by decide) (by decide)
  refine ⟨h.1, h.2.2.1, ?_⟩
  obtain ⟨bResp, hok, hscopes, hall⟩ := h.2.2.2.2
  have hs := bidsPut_success (some ⟨1, .ADMIN⟩) "7" (exBody .null) exDb 7 exBid
    (by decide) (by decide) (by decide)
  rw [hs]
  decide

/-! ### C7 — viewer redaction -/

lemma can_read_some (usr : User) : can (some usr) .read = true := by
  obtain ⟨uid, r⟩ := usr
  cases r <;> rfl

lemma bidsPost_created_shape (u : Option User) (body : BidBody) (db : Db) (b : Bid)
    (h : (bidsPost u body db).2 = .created b) : b = postNewBid body db := by
  unfold bidsPost at h
  by_cases hg : requireRole [.ADMIN, .MANAGER, .ESTIMATOR] u = true
  · rw [if_neg (by simp [hg])] at h
    simpa using h.symm
  · rw [if_pos (by simp [Bool.not_eq_true] at hg ⊢; exact hg)] at h
    simp at h

lemma bidsGetOne_ok_shape (u : Option User) (usr : User) (idStr : String) (db : Db)
    (d : BidDetail) (hu : u = some usr) (hd : bidsGetOne u idStr db = .ok d) :
    ∃ b, b ∈ db.bids ∧
      ((usr.role = .VIEWER ∧ d = { toDetail db b with scopes := none }) ∨
       (¬ usr.role = .VIEWER ∧ d = toDetail db b)) := by
  unfold bidsGetOne at hd
  rw [if_neg (by simp [hu, can_read_some])] at hd
  split at hd
  next idq heq =>
    split at hd
    next hfnone => simp at hd
    next b hfind =>
      refine ⟨b, List.mem_of_find?_eq_some hfind, ?_⟩
      by_cases hr : usr.role = .VIEWER
      · rw [if_pos (by simp [hu, hr])] at hd
        simp at hd
        exact .inl ⟨hr, hd.symm⟩
      · rw [if_neg (by simp [hu, hr])] at hd
        simp at hd
        exact .inr ⟨hr, hd.symm⟩
  next x heq => simp at hd

/-- C7: a VIEWER receives list rows with `amount` nulled (the list
projection carries no `scopes` property for any role) and single
records with the `scopes` field omitted; every other role receives the
full projection and the full record; and the write paths are never
redacted — the scopes persisted by create/update are the sanitized
request scopes, independent of role. -/
theorem C7_viewer_redaction (u : Option User) (usr : User) (q : ListQuery)
    (db : Db) (idStr : String) (body : BidBody) (hu : u = some usr) :
    (usr.role = .VIEWER →
        bidsGetList u q db =
          .ok ((listMapped db q).map (fun r => { r with amount := none })) ∧
        (∀ d, bidsGetOne u idStr db = .ok d →
            d.scopes = none ∧
            ∃ b, b ∈ db.bids ∧ d = { toDetail db b with scopes := none })) ∧
    (¬ usr.role = .VIEWER →
        bidsGetList u q db = .ok (listMapped db q) ∧
        (∀ d, bidsGetOne u idStr db = .ok d →
            ∃ b, b ∈ db.bids ∧ d = toDetail db b)) ∧
    (∀ b, (bidsPost u body db).2 = .created b →
        b.scopes = sanitizeScopes body.scopes) ∧
    (∀ b, (bidsPut u idStr body db).2 = .ok b →
        b.scopes = sanitizeScopes body.scopes) := by
  refine ⟨?_, ?_, ?_, ?_⟩
  · intro hr
    constructor
    · unfold bidsGetList
      rw [if_neg (by simp [hu, can_read_some])]
      unfold redactForViewer
      rw [if_neg (by simp [hu, hr])]
    · intro d hd
      obtain ⟨b, hb, hshape⟩ := bidsGetOne_ok_shape u usr idStr db d hu hd
      rcases hshape with ⟨_, rfl⟩ | ⟨hnr, _⟩
      · exact ⟨rfl, b, hb, rfl⟩
      · exact absurd hr hnr
  · intro hr
    constructor
    · unfold bidsGetList
      rw [if_neg (by simp [hu, can_read_some])]
      unfold redactForViewer
      rw [if_pos (by simp [hu, hr])]
    · intro d hd
      obtain ⟨b, hb, hshape⟩ := bidsGetOne_ok_shape u usr idStr db d hu hd
      rcases hshape with ⟨hv, _⟩ | ⟨_, rfl⟩
      · exact absurd hv hr
      · exact ⟨b, hb, rfl⟩
  · intro b h
    rw [bidsPost_created_shape u body db b h]
    rfl
  · intro b h
    exact (bidsPut_ok_fields u idStr body db b h).2

/-- Concrete witness for C7: a VIEWER listing gets `amount: null` rows,
a VIEWER single read gets the record without scopes, an ADMIN gets the
full projection. -/
theorem C7_viewer_redaction_witness :
    bidsGetList (some ⟨1, .VIEWER⟩) ⟨none, none⟩ exDb =
      .ok ((listMapped exDb ⟨none, none⟩).map (fun r => { r with amount := none })) ∧
    ((listMapped exDb ⟨none, none⟩).map (fun r => { r with amount := none })).map
        (fun r => r.amount) = [none] ∧
    bidsGetOne (some ⟨1, .VIEWER⟩) "7" exDb =
      .ok { toDetail exDb exBid with scopes := none } ∧
    bidsGetList (some ⟨1, .ADMIN⟩) ⟨none, none⟩ exDb = .ok (listMapped exDb ⟨none, none⟩) ∧
    (listMapped exDb ⟨none, none⟩).map (fun r => r.amount.isSome) = [true] := by
  have hv := C7_viewer_redaction (some ⟨1, .VIEWER⟩) ⟨1, .VIEWER⟩ ⟨none, none⟩
    exDb "7" (exBody .missing) rfl
  have ha := C7_viewer_redaction (some ⟨1, .ADMIN⟩) ⟨1, .ADMIN⟩ ⟨none, none⟩
    exDb "7" (exBody .missing) rfl
  refine ⟨(hv.1 rfl).1, by decide, by decide, (ha.2.1 (by decide)).1, by decide⟩

/-! ### C4 — grouping key -/

lemma assocFind_keys_ne (acc : List (String × Group)) (k : String)
    (h : assocFind acc k = none) : ∀ p ∈ acc, ¬ p.1 = k := by
  intro p hp
  unfold assocFind at h
  have hf : acc.find? (fun q => q.1 = k) = none := by
    cases hfind : acc.find? (fun q => q.1 = k) with
    | none => rfl
    | some q => rw [hfind] at h; simp at h
  have := List.find?_eq_none.mp hf p hp
  simpa using this

lemma assocReplace_of_none (acc : List (String × Group)) (k : String) (g : Group)
    (h : assocFind acc k = none) : assocReplace acc k g = acc := by
  unfold assocReplace
  have : ∀ p ∈ acc, (if p.1 = k then (k, g) else p) = p := by
    intro p hp
    rw [if_neg (assocFind_keys_ne acc k h p hp)]
  calc acc.map (fun p => if p.1 = k then (k, g) else p)
      = acc.map id := List.map_congr_left this
    _ = acc := List.map_id acc

lemma assocFind_append_single (acc : List (String × Group)) (k : String) (g : Group)
    (h : assocFind acc k = none) :
    assocFind (acc ++ [(k, g)]) k = some g := by
  unfold assocFind at h ⊢
  have hf : acc.find? (fun q => q.1 = k) = none := by
    cases hfind : acc.find? (fun q => q.1 = k) with
    | none => rfl
    | some q => rw [hfind] at h; simp at h
  rw [List.find?_append, hf]
  simp

lemma assocFind_replace_self (acc : List (String × Group)) (k : String) (g g' : Group)
    (h : assocFind acc k = some g) :
    assocFind (assocReplace acc k g') k = some g' := by
  unfold assocFind at h
  induction acc with
  | nil => simp at h
  | cons p t ih =>
      by_cases hp : p.1 = k
      · unfold assocReplace assocFind
        rw [List.map_cons, if_pos hp, List.find?_cons_of_pos _ (by simp)]
        rfl
      · unfold assocReplace assocFind
        rw [List.map_cons, if_neg hp, List.find?_cons_of_neg _ (by simp [hp])]
        rw [List.find?_cons_of_neg _ (by simp [hp])] at h
        exact ih h

lemma assocReplace_replace (acc : List (String × Group)) (k : String) (g1 g2 : Group) :
    assocReplace (assocReplace acc k g1) k g2 = assocReplace acc k g2 := by
  unfold assocReplace
  rw [List.map_map]
  apply List.map_congr_left
  intro p _
  by_cases hp : p.1 = k <;> simp [Function.comp, hp]

lemma elevated_scopes (g : Group) (r : Row) : (elevated g r).scopes = g.scopes := by
  simp only [elevated]
  split <;> rfl

lemma groupStep_none (acc : List (String × Group)) (r : Row)
    (h : rowKey? r = none) : groupStep acc r = acc := by
  unfold groupStep
  rw [h]

lemma groupStep_fresh (acc : List (String × Group)) (r : Row) (k : String)
    (hk : rowKey? r = some k) (hf : assocFind acc k = none) :
    groupStep acc r = acc ++ [(k, { seedGroup r with scopes := [draftOfRow r] })] := by
  unfold groupStep
  simp only [hk, hf]
  rw [assocFind_append_single acc k (seedGroup r) hf]
  simp only []
  unfold assocReplace
  rw [List.map_append]
  congr 1
  · calc acc.map (fun p => if p.1 = k then _ else p)
        = acc.map id := List.map_congr_left (by
          intro p hp
          rw [if_neg (assocFind_keys_ne acc k hf p hp)]
          rfl)
      _ = acc := List.map_id acc
  · simp [seedGroup]

lemma groupStep_existing (acc : List (String × Group)) (r : Row) (k : String) (g : Group)
    (hk : rowKey? r = some k) (hf : assocFind acc k = some g) :
    groupStep acc r =
      assocReplace acc k { elevated g r with scopes := g.scopes ++ [draftOfRow r] } := by
  unfold groupStep
  simp only [hk, hf]
  rw [assocFind_replace_self acc k g (elevated g r) hf]
  simp only []
  rw [assocReplace_replace, elevated_scopes]

lemma groupRows_skip (r : Row) (rows : List Row) (h : rowKey? r = none) :
    groupRows (r :: rows) = groupRows rows := by
  unfold groupRows
  rw [List.foldl_cons, groupStep_none [] r h]

/-- C4 counterexample: the rows `("a||b", "c")` and `("a", "b||c")`
have different trimmed (projectName, clientCompany) pairs, yet their
concatenated keys coincide, so they are merged into a single group
carrying both scope rows — and bulk import then creates one bid with
both scopes. -/
theorem C4_grouping_counterexample :
    ¬ (jsTrim "a||b", jsTrim "c") = (jsTrim "a", jsTrim "b||c") ∧
    (groupRows [exRow "a||b" "c" "s1" none, exRow "a" "b||c" "s2" none]).map
        (fun p => (p.1, p.2.scopes.length)) = [("a||b||c", 2)] ∧
    (importBids [exRow "a||b" "c" "s1" none, exRow "a" "b||c" "s2" none] exDb).2.imported = 1 ∧
    ((importBids [exRow "a||b" "c" "s1" none, exRow "a" "b||c" "s2" none] exDb).1.bids.map
        (fun b => b.scopes.length)) = [3, 2] := by
  refine ⟨by decide, by decide, by decide, by decide⟩

/-- C4 amended: grouping keys rows by the concatenated string
`projectName ++ "||" ++ clientCompany` of the trimmed fields.  Rows
with equal trimmed pairs always share a key and land in one group
carrying both scope rows; rows with different keys are never merged;
but two rows whose distinct pairs concatenate to the same key (a field
containing `"||"`) are merged, so "pairs differ ⟹ never merged" holds
only up to key collision.  Rows with an empty trimmed `projectName` or
`clientCompany` are discarded before grouping: the whole import is
unchanged by such a row, so it is neither persisted nor reported in
the errors list. -/
theorem C4_grouping_amended (r1 r2 : Row) (k1 k2 : String)
    (h1 : rowKey? r1 = some k1) (h2 : rowKey? r2 = some k2) :
    (k1 = k2 →
        groupRows [r1, r2] =
          [(k1, { elevated { seedGroup r1 with scopes := [draftOfRow r1] } r2 with
                    scopes := [draftOfRow r1, draftOfRow r2] })]) ∧
    (¬ k1 = k2 →
        groupRows [r1, r2] =
          [(k1, { seedGroup r1 with scopes := [draftOfRow r1] }),
           (k2, { seedGroup r2 with scopes := [draftOfRow r2] })]) ∧
    (jsTrim (r1.projectName.getD "") = jsTrim (r2.projectName.getD "") ∧
        jsTrim (r1.clientCompany.getD "") = jsTrim (r2.clientCompany.getD "") →
      k1 = k2) ∧
    (∀ (r : Row) (rows : List Row) (db : Db), rowKey? r = none →
        importBids (r :: rows) db = importBids rows db) := by
  have hstep1 : groupRows [r1, r2] = groupStep (groupStep [] r1) r2 := rfl
  have hfresh1 : groupStep [] r1 = [(k1, { seedGroup r1 with scopes := [draftOfRow r1] })] := by
    rw [groupStep_fresh [] r1 k1 h1 rfl]
    rfl
  refine ⟨?_, ?_, ?_, ?_⟩
  · intro hk
    subst hk
    rw [hstep1, hfresh1,
      groupStep_existing _ r2 k1 { seedGroup r1 with scopes := [draftOfRow r1] } h2
        (by unfold assocFind; rw [List.find?_cons_of_pos _ (by simp)]; rfl)]
    unfold assocReplace
    simp
  · intro hk
    rw [hstep1, hfresh1,
      groupStep_fresh _ r2 k2 h2
        (by unfold assocFind
            rw [List.find?_cons_of_neg _ (by simpa using hk)]
            rfl)]
    rfl
  · rintro ⟨hpn, hcc⟩
    unfold rowKey? at h1 h2
    by_cases c1 : jsTrim (r1.projectName.getD "") = "" ∨ jsTrim (r1.clientCompany.getD "") = ""
    · rw [if_pos c1] at h1
      exact absurd h1 (by simp)
    · rw [if_neg c1] at h1
      by_cases c2 : jsTrim (r2.projectName.getD "") = "" ∨ jsTrim (r2.clientCompany.getD "") = ""
      · rw [if_pos c2] at h2
        exact absurd h2 (by simp)
      · rw [if_neg c2] at h2
        have e1 := Option.some.inj h1
        have e2 := Option.some.inj h2
        rw [← e1, ← e2, hpn, hcc]
  · intro r rows db h
    unfold importBids
    rw [groupRows_skip r rows h]

/-- Concrete witness for C4's amended theorem: two rows with the same
pair form one group with both scopes, two rows with different
non-colliding pairs form two groups, and a row with an empty
`projectName` changes nothing about the import. -/
theorem C4_grouping_amended_witness :
    (groupRows [exRow "p" "c" "s1" none, exRow "p" "c" "s2" none]).map
        (fun p => (p.1, p.2.scopes.length)) = [("p||c", 2)] ∧
    (groupRows [exRow "p" "c" "s1" none, exRow "x" "y" "s2" none]).map
        (fun p => (p.1, p.2.scopes.length)) = [("p||c", 1), ("x||y", 1)] ∧
    importBids (exRow "" "c" "s0" none :: [exRow "p" "c" "s1" none]) exDb =
      importBids [exRow "p" "c" "s1" none] exDb := by
  have h := C4_grouping_amended (exRow "p" "c" "s1" none) (exRow "p" "c" "s2" none)
    "p||c" "p||c" (by decide) (by decide)
  have h2 := C4_grouping_amended (exRow "p" "c" "s1" none) (exRow "x" "y" "s2" none)
    "p||c" "x||y" (by decide) (by decide)
  refine ⟨?_, ?_, ?_⟩
  · rw [h.1 rfl]
    decide
  · rw [h2.2.1 (by decide)]
    decide
  · exact h.2.2.2 (exRow "" "c" "s0" none) [exRow "p" "c" "s1" none] exDb (by decide)

/-! ### C9 — status elevation during grouping -/

lemma firstNonActive_append (xs ys : List BidStatus) :
    firstNonActive (xs ++ ys) =
      (if firstNonActive xs = .Active then firstNonActive ys else firstNonActive xs) := by
  induction xs with
  | nil => simp [firstNonActive]
  | cons s t ih =>
      by_cases hs : s = BidStatus.Active
      · simp [firstNonActive, hs, ih]
      · simp [firstNonActive, hs]

lemma firstNonActive_single (s : BidStatus) : firstNonActive [s] = s := by
  cases s <;> rfl

/-- Appending one status to a history acts exactly like the source's
elevation branch. -/
lemma firstNonActive_snoc (xs : List BidStatus) (s : BidStatus) :
    firstNonActive (xs ++ [s]) =
      (if firstNonActive xs = .Active ∧ ¬ s = .Active then s else firstNonActive xs) := by
  rw [firstNonActive_append, firstNonActive_single]
  by_cases hx : firstNonActive xs = BidStatus.Active
  · by_cases hs : s = BidStatus.Active <;> simp [hx, hs]
  · simp [hx]

lemma keyStatuses_nil (k : String) : keyStatuses k [] = [] := rfl

lemma keyStatuses_cons (k : String) (r : Row) (rows : List Row) :
    keyStatuses k (r :: rows) =
      (if rowKey? r = some k then [cleanBidStatus r.bidStatus] else []) ++
        keyStatuses k rows := by
  unfold keyStatuses
  by_cases h : rowKey? r = some k <;> simp [h]

lemma elevated_bidStatus (g : Group) (r : Row) :
    (elevated g r).bidStatus =
      (if g.bidStatus = .Active ∧ ¬ cleanBidStatus r.bidStatus = .Active then
        cleanBidStatus r.bidStatus
      else g.bidStatus) := by
  simp only [elevated]
  split <;> rfl

lemma assocFind_mem (acc : List (String × Group)) (k : String) (g : Group)
    (h : assocFind acc k = some g) : (k, g) ∈ acc := by
  unfold assocFind at h
  cases hf : acc.find? (fun q => q.1 = k) with
  | none => rw [hf] at h; simp at h
  | some p =>
      rw [hf] at h
      simp at h
      have hpk : p.1 = k := by simpa using List.find?_some hf
      have hpm := List.mem_of_find?_eq_some hf
      have : p = (k, g) := by
        obtain ⟨p1, p2⟩ := p
        simp at hpk h
        rw [hpk, h]
      rw [← this]
      exact hpm

lemma mem_assocReplace (acc : List (String × Group)) (k : String) (g' : Group)
    (q : String × Group) (hq : q ∈ assocReplace acc k g') :
    (q ∈ acc ∧ ¬ q.1 = k) ∨ q = (k, g') := by
  unfold assocReplace at hq
  obtain ⟨p, hp, himg⟩ := List.mem_map.mp hq
  by_cases hpk : p.1 = k
  · right
    rw [← himg, if_pos hpk]
  · left
    rw [← himg, if_neg hpk]
    exact ⟨hp, hpk⟩

lemma assocFind_replace_ne (acc : List (String × Group)) (k1 : String) (g' : Group)
    (k : String) (hne : ¬ k = k1) :
    assocFind (assocReplace acc k1 g') k = assocFind acc k := by
  unfold assocReplace assocFind
  induction acc with
  | nil => rfl
  | cons p t ih =>
      rw [List.map_cons]
      by_cases hp : p.1 = k1
      · have hne2 : ¬ (p.1 = k) := by
          rw [hp]
          exact fun h => hne h.symm
        rw [if_pos hp,
          List.find?_cons_of_neg _ (by simpa using fun h => hne h.symm),
          List.find?_cons_of_neg _ (by simpa using hne2)]
        exact ih
      · rw [if_neg hp]
        by_cases hpk : p.1 = k
        · rw [List.find?_cons_of_pos _ (by simpa using hpk),
            List.find?_cons_of_pos _ (by simpa using hpk)]
        · rw [List.find?_cons_of_neg _ (by simpa using hpk),
            List.find?_cons_of_neg _ (by simpa using hpk)]
          exact ih

lemma assocFind_append_none (acc : List (String × Group)) (k1 : String) (g : Group)
    (k : String) (h : assocFind (acc ++ [(k1, g)]) k = none) :
    assocFind acc k = none ∧ ¬ k1 = k := by
  unfold assocFind at h ⊢
  rw [List.find?_append] at h
  cases hf : acc.find? (fun q => q.1 = k) with
  | some p => rw [hf] at h; simp at h
  | none =>
      rw [hf] at h
      simp at h
      exact ⟨rfl, by simpa using h⟩

/-- The grouping-loop invariant: running the loop from any accumulator
whose groups' statuses reflect a per-key history `f`, every group of
the result carries the first non-Active status of its full history. -/
lemma groupRows_status_inv (rows : List Row) :
    ∀ (acc : List (String × Group)) (f : String → List BidStatus),
      (∀ p ∈ acc, p.2.bidStatus = firstNonActive (f p.1)) →
      (∀ k, assocFind acc k = none → f k = []) →
      ∀ p ∈ rows.foldl groupStep acc,
        p.2.bidStatus = firstNonActive (f p.1 ++ keyStatuses p.1 rows) := by
  induction rows with
  | nil =>
      intro acc f h1 h2 p hp
      rw [keyStatuses_nil, List.append_nil]
      exact h1 p hp
  | cons r rest ih =>
      intro acc f h1 h2 p hp
      rw [List.foldl_cons] at hp
      have key1 : ∀ q ∈ groupStep acc r,
          q.2.bidStatus = firstNonActive (f q.1 ++
            (if rowKey? r = some q.1 then [cleanBidStatus r.bidStatus] else [])) := by
        intro q hq
        cases hk : rowKey? r with
        | none =>
            rw [groupStep_none acc r hk] at hq
            rw [if_neg (by simp [hk]), List.append_nil]
            exact h1 q hq
        | some kr =>
            cases hfind : assocFind acc kr with
            | none =>
                rw [groupStep_fresh acc r kr hk hfind] at hq
                rcases List.mem_append.mp hq with hq | hq
                · have hne : ¬ q.1 = kr := assocFind_keys_ne acc kr hfind q hq
                  rw [if_neg (by simp [hk]; intro h; exact hne h.symm), List.append_nil]
                  exact h1 q hq
                · have hq' : q = (kr, { seedGroup r with scopes := [draftOfRow r] }) := by
                    simpa using hq
                  rw [hq']
                  rw [if_pos (by simp [hk]), h2 kr hfind, List.nil_append,
                    firstNonActive_single]
                  rfl
            | some g =>
                rw [groupStep_existing acc r kr g hk hfind] at hq
                rcases mem_assocReplace acc kr _ q hq with ⟨hqa, hne⟩ | hq'
                · rw [if_neg (by simp [hk]; intro h; exact hne h.symm), List.append_nil]
                  exact h1 q hqa
                · have hg : g.bidStatus = firstNonActive (f kr) :=
                    h1 (kr, g) (assocFind_mem acc kr g hfind)
                  have hq1 : q.1 = kr := by rw [hq']
                  have hq2 : q.2.bidStatus = (elevated g r).bidStatus := by rw [hq']
                  rw [hq2, hq1, if_pos rfl, elevated_bidStatus,
                    firstNonActive_snoc, hg]
      have key2 : ∀ k, assocFind (groupStep acc r) k = none →
          f k ++ (if rowKey? r = some k then [cleanBidStatus r.bidStatus] else []) = [] := by
        intro k hnone
        cases hk : rowKey? r with
        | none =>
            rw [groupStep_none acc r hk] at hnone
            rw [if_neg (by simp [hk]), List.append_nil]
            exact h2 k hnone
        | some kr =>
            cases hfind : assocFind acc kr with
            | none =>
                rw [groupStep_fresh acc r kr hk hfind] at hnone
                obtain ⟨hacc, hne⟩ := assocFind_append_none acc kr _ k hnone
                rw [if_neg (by simp [hk]; intro h; exact hne h), List.append_nil]
                exact h2 k hacc
            | some g =>
                rw [groupStep_existing acc r kr g hk hfind] at hnone
                by_cases hkk : k = kr
                · subst hkk
                  rw [assocFind_replace_self acc k g _ hfind] at hnone
                  simp at hnone
                · rw [assocFind_replace_ne acc kr _ k hkk] at hnone
                  rw [if_neg (by simp [hk]; intro h; exact hkk h.symm), List.append_nil]
                  exact h2 k hnone
      have := ih (groupStep acc r)
        (fun k => f k ++ (if rowKey? r = some k then [cleanBidStatus r.bidStatus] else []))
        key1 key2 p hp
      rw [keyStatuses_cons, ← List.append_assoc]
      exact this

/-- C9: every group produced by bulk-import grouping carries the first
non-Active canonicalized status among its rows (in row order), `Active`
when there is none — so the status is upgraded from `Active` exactly
once, never downgrades, and never changes after the first non-Active
row (`active, hot, active` yields `Hot`). -/
theorem C9_status_elevation (rows : List Row) (k : String) (g : Group)
    (h : (k, g) ∈ groupRows rows) :
    g.bidStatus = firstNonActive (keyStatuses k rows) := by
  have := groupRows_status_inv rows [] (fun _ => [])
    (by intro p hp; simp at hp) (by intro k' _; rfl) (k, g) h
  simpa using this

/-- Concrete witness for C9: rows with statuses `active, hot, active`
on one key produce a group whose status is `Hot`. -/
theorem C9_status_elevation_witness :
    exGroupC9.bidStatus = .Hot ∧
    (groupRows exRowsC9).map (fun p => p.2.bidStatus) = [.Hot] ∧
    firstNonActive (keyStatuses "p||c" exRowsC9) = .Hot := by
  have h := C9_status_elevation exRowsC9 "p||c" exGroupC9 (by decide)
  exact ⟨h.trans (by decide), by decide, by decide⟩

end Frontier
